import Mathlib

/-!
Shallow embedding of the OCI artifact downloader (`src/main.rs`).

The program reads four environment variables, fetches an OCI manifest over
HTTP, writes it to disk, resolves layer (or config) digests, and downloads
each referenced blob, pretty-printing JSON-looking payloads.

Modelling conventions:
- Strings are `List Char`; byte streams are `List Nat` (each < 256).
- The HTTP side effects are an oracle (`World`) giving the response of the
  manifest endpoint, the catalog endpoint, and each blob endpoint.
- `serde_json` values are modelled by the mutual inductive `Json`; numbers
  are modelled as integers (float payloads are outside the model).  Objects
  are modelled as key/value lists in parse order; `get` returns the last
  binding for a key, matching the map semantics of `serde_json`.
- `fs` writes are collected in a trace and never fail in the model.
- Text fields written with Rust `String` values are stored as `.text`
  file data (identifying a string with its UTF-8 encoding).
-/

/-- Character constants that are awkward as literals. -/
def quoteChar : Char := Char.ofNat 34

def backslashChar : Char := Char.ofNat 92

def lbraceChar : Char := Char.ofNat 123

def rbraceChar : Char := Char.ofNat 125

/-- JSON insignificant whitespace, as accepted by `serde_json`. -/
def wsChar (c : Char) : Bool :=
  c == ' ' || c == Char.ofNat 10 || c == Char.ofNat 9 || c == Char.ofNat 13

def newlineChar : Char := Char.ofNat 10

def isDigitChar (c : Char) : Bool := 48 ≤ c.toNat && c.toNat ≤ 57

def digitToChar (d : Nat) : Char := Char.ofNat (48 + d)

def charDigit (c : Char) : Nat := c.toNat - 48

/-- Lowercase hexadecimal digit, as emitted by `serde_json` string escapes. -/
def hexDigitChar (n : Nat) : Char :=
  if n < 10 then Char.ofNat (48 + n) else Char.ofNat (87 + n)

def hexVal (c : Char) : Option Nat :=
  if 48 ≤ c.toNat && c.toNat ≤ 57 then some (c.toNat - 48)
  else if 97 ≤ c.toNat && c.toNat ≤ 102 then some (c.toNat - 87)
  else if 65 ≤ c.toNat && c.toNat ≤ 70 then some (c.toNat - 55)
  else none

def hexQuad (a b c d : Char) : Option Nat :=
  match hexVal a, hexVal b, hexVal c, hexVal d with
  | some x, some y, some z, some w => some (((x * 16 + y) * 16 + z) * 16 + w)
  | _, _, _, _ => none

/-- Big-endian decimal digits of a positive number, by fuel-bounded
structural recursion so that the kernel can evaluate it. -/
def natCharsAux : Nat → Nat → List Char
  | 0, _ => []
  | fuel + 1, n =>
    if n = 0 then [] else natCharsAux fuel (n / 10) ++ [digitToChar (n % 10)]

/-- Decimal digit characters of a natural number, most significant first. -/
def natChars (n : Nat) : List Char :=
  if n = 0 then [digitToChar 0] else natCharsAux n n

/-- Decimal rendering of an integer, as produced by Rust integer `Display`. -/
def intChars (n : Int) : List Char :=
  if n < 0 then '-' :: natChars n.natAbs else natChars n.toNat

def nSpaces (k : Nat) : List Char := List.replicate k ' '

def skipWs : List Char → List Char
  | [] => []
  | c :: r => if wsChar c then skipWs r else c :: r

/- Model of a `serde_json::Value`.  Arrays and objects carry their own
list types so that the whole family is a plain mutual inductive. -/
mutual
inductive Json where
  | null : Json
  | bool (b : Bool) : Json
  | num (n : Int) : Json
  | str (s : List Char) : Json
  | arr (elems : JArr) : Json
  | obj (fields : JObj) : Json
inductive JArr where
  | nil : JArr
  | cons (hd : Json) (tl : JArr) : JArr
inductive JObj where
  | nil : JObj
  | cons (key : List Char) (val : Json) (tl : JObj) : JObj
end

/- Fuel measure of a JSON value: one unit per parser-level recursive call
needed to consume its printed form. -/
mutual
def jsize : Json → Nat
  | .null => 1
  | .bool _ => 1
  | .num _ => 1
  | .str _ => 1
  | .arr xs => 1 + jsizeA xs
  | .obj kvs => 1 + jsizeO kvs
def jsizeA : JArr → Nat
  | .nil => 1
  | .cons v tl => 1 + jsize v + jsizeA tl
def jsizeO : JObj → Nat
  | .nil => 1
  | .cons _ v tl => 1 + jsize v + jsizeO tl
end

/-- Escape of one character inside a JSON string, following
`serde_json`: quote, backslash, the five short control escapes, and
`\u00xx` for the remaining control characters. -/
def escChar (c : Char) : List Char :=
  if c == quoteChar then [backslashChar, quoteChar]
  else if c == backslashChar then [backslashChar, backslashChar]
  else if c.toNat == 8 then [backslashChar, 'b']
  else if c.toNat == 9 then [backslashChar, 't']
  else if c.toNat == 10 then [backslashChar, 'n']
  else if c.toNat == 12 then [backslashChar, 'f']
  else if c.toNat == 13 then [backslashChar, 'r']
  else if c.toNat < 32 then
    [backslashChar, 'u', '0', '0', hexDigitChar (c.toNat / 16), hexDigitChar (c.toNat % 16)]
  else [c]

def escString : List Char → List Char
  | [] => []
  | c :: r => escChar c ++ escString r

def nullChars : List Char := ['n', 'u', 'l', 'l']

def trueChars : List Char := ['t', 'r', 'u', 'e']

def falseChars : List Char := ['f', 'a', 'l', 's', 'e']

/- Model of `serde_json::to_string_pretty` (two-space indentation).
`printValue ind v` renders `v` whose closing delimiter sits at nesting
depth `ind`. -/
mutual
def printValue (ind : Nat) : Json → List Char
  | .null => nullChars
  | .bool true => trueChars
  | .bool false => falseChars
  | .num n => intChars n
  | .str s => quoteChar :: escString s ++ [quoteChar]
  | .arr .nil => ['[', ']']
  | .arr (.cons v tl) =>
      '[' :: newlineChar :: printItems (ind + 1) (JArr.cons v tl) ++
        newlineChar :: nSpaces (2 * ind) ++ [']']
  | .obj .nil => [lbraceChar, rbraceChar]
  | .obj (.cons k v tl) =>
      lbraceChar :: newlineChar :: printFields (ind + 1) (JObj.cons k v tl) ++
        newlineChar :: nSpaces (2 * ind) ++ [rbraceChar]
def printItems (ind : Nat) : JArr → List Char
  | .nil => []
  | .cons v .nil => nSpaces (2 * ind) ++ printValue ind v
  | .cons v (.cons w tl) =>
      nSpaces (2 * ind) ++ printValue ind v ++
        ',' :: newlineChar :: printItems ind (JArr.cons w tl)
def printFields (ind : Nat) : JObj → List Char
  | .nil => []
  | .cons k v .nil =>
      nSpaces (2 * ind) ++ quoteChar :: escString k ++ quoteChar :: ':' :: ' ' ::
        printValue ind v
  | .cons k v (.cons k2 w tl) =>
      nSpaces (2 * ind) ++ quoteChar :: escString k ++ quoteChar :: ':' :: ' ' ::
        printValue ind v ++ ',' :: newlineChar :: printFields ind (JObj.cons k2 w tl)
end

/-- Decoding of a two-character escape inside a JSON string literal. -/
def escDecode (e : Char) : Option Char :=
  if e == quoteChar then some quoteChar
  else if e == backslashChar then some backslashChar
  else if e == '/' then some '/'
  else if e == 'b' then some (Char.ofNat 8)
  else if e == 't' then some (Char.ofNat 9)
  else if e == 'n' then some (Char.ofNat 10)
  else if e == 'f' then some (Char.ofNat 12)
  else if e == 'r' then some (Char.ofNat 13)
  else none

/-- String-literal body reader, entered after the opening quote.  Raw
control characters are rejected and `\uXXXX` escapes (including surrogate
pairs) are decoded, following `serde_json`.  Fuel is one unit per
produced character; every step consumes at least one input character, so
the input length is always enough fuel. -/
def pString : Nat → List Char → Option (List Char × List Char)
  | 0, _ => none
  | _, [] => none
  | fuel + 1, c :: rest =>
    if c == quoteChar then some ([], rest)
    else if c == backslashChar then
      match rest with
      | [] => none
      | e :: r2 =>
        if e == 'u' then
          match r2 with
          | a :: b :: c2 :: d :: r3 =>
            match hexQuad a b c2 d with
            | none => none
            | some n =>
              if n < 55296 || 57344 ≤ n then
                match pString fuel r3 with
                | some (s, r4) => some (Char.ofNat n :: s, r4)
                | none => none
              else if n < 56320 then
                match r3 with
                | e2 :: u2 :: a2 :: b2 :: c3 :: d2 :: r5 =>
                  if e2 == backslashChar && u2 == 'u' then
                    match hexQuad a2 b2 c3 d2 with
                    | some m =>
                      if 56320 ≤ m && m < 57344 then
                        match pString fuel r5 with
                        | some (s, r6) =>
                            some (Char.ofNat (65536 + (n - 55296) * 1024 + (m - 56320)) :: s, r6)
                        | none => none
                      else none
                    | none => none
                  else none
                | _ => none
              else none
          | _ => none
        else
          match escDecode e with
          | some ec =>
            match pString fuel r2 with
            | some (s, r3) => some (ec :: s, r3)
            | none => none
          | none => none
    else if 32 ≤ c.toNat then
      match pString fuel rest with
      | some (s, r2) => some (c :: s, r2)
      | none => none
    else none

/-- Greedy decimal-digit run reader. -/
def pDigits (acc : Nat) : List Char → Nat × List Char
  | [] => (acc, [])
  | c :: rest =>
    if isDigitChar c then pDigits (acc * 10 + charDigit c) rest
    else (acc, c :: rest)

/-- A number token may not be followed by a fractional or exponent part in
the integer-only model (those would make `serde_json` read a float). -/
def floatFollows : List Char → Bool
  | [] => false
  | c :: _ => c == '.' || c == 'e' || c == 'E'

/-- Unsigned integer token: either a lone `0` or a nonzero-led digit run,
mirroring the leading-zero rule of JSON. -/
def pNumAbs (s : List Char) : Option (Nat × List Char) :=
  match s with
  | [] => none
  | c :: rest =>
    if c == digitToChar 0 then
      if (match rest with | d :: _ => isDigitChar d | [] => false) then none
      else if floatFollows rest then none
      else some (0, rest)
    else if isDigitChar c then
      match pDigits (charDigit c) rest with
      | (v, r) => if floatFollows r then none else some (v, r)
    else none

def pNumber (s : List Char) : Option (Int × List Char) :=
  match s with
  | [] => none
  | c :: rest =>
    if c == '-' then
      match pNumAbs rest with
      | some (m, r) => some (-(m : Int), r)
      | none => none
    else
      match pNumAbs (c :: rest) with
      | some (m, r) => some ((m : Int), r)
      | none => none

/-- Consume an exact run of characters. -/
def dropPat : List Char → List Char → Option (List Char)
  | [], s => some s
  | p :: ps, c :: s => if c == p then dropPat ps s else none
  | _ :: _, [] => none

/- Recursive-descent JSON value reader with explicit fuel; one unit of
fuel is spent per `pValue`/`pItems`/`pFields` call. -/
mutual
def pValue : Nat → List Char → Option (Json × List Char)
  | 0, _ => none
  | fuel + 1, s =>
    match skipWs s with
    | [] => none
    | c :: rest =>
      if c == quoteChar then
        match pString (rest.length + 1) rest with
        | some (str, r) => some (.str str, r)
        | none => none
      else if c == '[' then
        match skipWs rest with
        | [] => none
        | c2 :: r2 =>
          if c2 == ']' then some (.arr .nil, r2)
          else
            match pItems fuel (c2 :: r2) with
            | some (xs, r) => some (.arr xs, r)
            | none => none
      else if c == lbraceChar then
        match skipWs rest with
        | [] => none
        | c2 :: r2 =>
          if c2 == rbraceChar then some (.obj .nil, r2)
          else
            match pFields fuel (c2 :: r2) with
            | some (kvs, r) => some (.obj kvs, r)
            | none => none
      else if c == 't' then
        match dropPat ['r', 'u', 'e'] rest with
        | some r => some (.bool true, r)
        | none => none
      else if c == 'f' then
        match dropPat ['a', 'l', 's', 'e'] rest with
        | some r => some (.bool false, r)
        | none => none
      else if c == 'n' then
        match dropPat ['u', 'l', 'l'] rest with
        | some r => some (.null, r)
        | none => none
      else if c == '-' || isDigitChar c then
        match pNumber (c :: rest) with
        | some (n, r) => some (.num n, r)
        | none => none
      else none
def pItems : Nat → List Char → Option (JArr × List Char)
  | 0, _ => none
  | fuel + 1, s =>
    match pValue fuel s with
    | none => none
    | some (v, r) =>
      match skipWs r with
      | [] => none
      | c :: r2 =>
        if c == ',' then
          match pItems fuel r2 with
          | some (tl, r3) => some (.cons v tl, r3)
          | none => none
        else if c == ']' then some (.cons v .nil, r2)
        else none
def pFields : Nat → List Char → Option (JObj × List Char)
  | 0, _ => none
  | fuel + 1, s =>
    match skipWs s with
    | [] => none
    | c :: r =>
      if c == quoteChar then
        match pString (r.length + 1) r with
        | none => none
        | some (k, r2) =>
          match skipWs r2 with
          | [] => none
          | c2 :: r3 =>
            if c2 == ':' then
              match pValue fuel r3 with
              | none => none
              | some (v, r4) =>
                match skipWs r4 with
                | [] => none
                | c3 :: r5 =>
                  if c3 == ',' then
                    match pFields fuel r5 with
                    | some (tl, r6) => some (.cons k v tl, r6)
                    | none => none
                  else if c3 == rbraceChar then some (.cons k v .nil, r5)
                  else none
            else none
      else none
end

/-- Model of `serde_json::from_str` restricted to the integer-number
fragment: one JSON value, then only whitespace to the end of input. -/
def jsonParse (s : List Char) : Option Json :=
  match pValue (s.length + 1) s with
  | some (v, r) => if skipWs r == ([] : List Char) then some v else none
  | none => none

/-- Is a byte a UTF-8 continuation byte. -/
def utf8Cont (b : Nat) : Bool := 128 ≤ b && b < 192

/-- Strict UTF-8 decoder, rejecting overlong forms, surrogates and
out-of-range code points, mirroring `String::from_utf8`. -/
def utf8Decode : List Nat → Option (List Char)
  | [] => some []
  | b :: rest =>
    if b < 128 then
      match utf8Decode rest with
      | some s => some (Char.ofNat b :: s)
      | none => none
    else if b < 194 then none
    else if b < 224 then
      match rest with
      | c1 :: r =>
        if utf8Cont c1 then
          match utf8Decode r with
          | some s => some (Char.ofNat ((b - 192) * 64 + (c1 - 128)) :: s)
          | none => none
        else none
      | [] => none
    else if b < 240 then
      match rest with
      | c1 :: c2 :: r =>
        if utf8Cont c1 && utf8Cont c2 &&
            (b != 224 || 160 ≤ c1) && (b != 237 || c1 < 160) then
          match utf8Decode r with
          | some s =>
              some (Char.ofNat ((b - 224) * 4096 + (c1 - 128) * 64 + (c2 - 128)) :: s)
          | none => none
        else none
      | _ => none
    else if b < 245 then
      match rest with
      | c1 :: c2 :: c3 :: r =>
        if utf8Cont c1 && utf8Cont c2 && utf8Cont c3 &&
            (b != 240 || 144 ≤ c1) && (b != 244 || c1 < 144) then
          match utf8Decode r with
          | some s =>
              some (Char.ofNat
                ((b - 240) * 262144 + (c1 - 128) * 4096 + (c2 - 128) * 64 + (c3 - 128)) :: s)
          | none => none
        else none
      | _ => none
    else none

/-- Fuel-bounded worker for `lossyText` (one unit of fuel per input
byte suffices, every step consumes at least one byte). -/
def lossyTextAux : Nat → List Nat → List Char
  | 0, _ => []
  | fuel + 1, l =>
    match l with
    | [] => []
    | b :: rest =>
      if b < 128 then Char.ofNat b :: lossyTextAux fuel rest
      else if b < 194 then Char.ofNat 65533 :: lossyTextAux fuel rest
      else if b < 224 then
        match rest with
        | c1 :: r =>
          if utf8Cont c1 then Char.ofNat ((b - 192) * 64 + (c1 - 128)) :: lossyTextAux fuel r
          else Char.ofNat 65533 :: lossyTextAux fuel rest
        | [] => [Char.ofNat 65533]
      else if b < 240 then
        match rest with
        | c1 :: c2 :: r =>
          if utf8Cont c1 && utf8Cont c2 &&
              (b != 224 || 160 ≤ c1) && (b != 237 || c1 < 160) then
            Char.ofNat ((b - 224) * 4096 + (c1 - 128) * 64 + (c2 - 128)) :: lossyTextAux fuel r
          else Char.ofNat 65533 :: lossyTextAux fuel rest
        | _ => Char.ofNat 65533 :: lossyTextAux fuel rest
      else if b < 245 then
        match rest with
        | c1 :: c2 :: c3 :: r =>
          if utf8Cont c1 && utf8Cont c2 && utf8Cont c3 &&
              (b != 240 || 144 ≤ c1) && (b != 244 || c1 < 144) then
            Char.ofNat ((b - 240) * 262144 + (c1 - 128) * 4096 + (c2 - 128) * 64 + (c3 - 128))
              :: lossyTextAux fuel r
          else Char.ofNat 65533 :: lossyTextAux fuel rest
        | _ => Char.ofNat 65533 :: lossyTextAux fuel rest
      else Char.ofNat 65533 :: lossyTextAux fuel rest

/-- Lossy UTF-8 text of a response body: valid sequences decode, anything
else becomes one replacement character per offending byte.  This
approximates the lossy decoding used by `reqwest::Response::text`. -/
def lossyText (l : List Nat) : List Char := lossyTextAux l.length l

/-- Model of `serde_json` parsing straight from response bytes
(`Response::json`, `from_slice`): UTF-8 validation then JSON parsing. -/
def jsonOfBytes (body : List Nat) : Option Json :=
  match utf8Decode body with
  | some s => jsonParse s
  | none => none

/-- Model of `str::ends_with` for a string suffix. -/
def listEndsWith (s pat : List Char) : Bool := pat.isSuffixOf s

/-- Fuel-bounded worker for `trimEndMatches`; one unit of fuel per
stripped occurrence is ample since the pattern is nonempty. -/
def trimEndAux (pat : List Char) : Nat → List Char → List Char
  | 0, s => s
  | fuel + 1, s =>
    if pat.isSuffixOf s && !pat.isEmpty then
      trimEndAux pat fuel (s.take (s.length - pat.length))
    else s

/-- Model of `str::trim_end_matches`: repeatedly strip a trailing match of
the pattern. -/
def trimEndMatches (pat s : List Char) : List Char :=
  trimEndAux pat s.length s

/-- Split a character list at every occurrence of the separator. -/
def splitOnChar (sep : Char) : List Char → List (List Char)
  | [] => [[]]
  | c :: r =>
    let rest := splitOnChar sep r
    if c == sep then [] :: rest
    else
      match rest with
      | h :: t => (c :: h) :: t
      | [] => [[c]]

/-- Model of `Path::new(s).file_name()` on Unix paths: the last component
after dropping empty and `.` segments, unless it is `..`. -/
def pathFileName (s : List Char) : Option (List Char) :=
  let segs := (splitOnChar '/' s).filter (fun seg => !(seg == ([] : List Char) || seg == ['.']))
  match segs.getLast? with
  | some last => if last == ['.', '.'] then none else some last
  | none => none

/-- Model of `Value::get` on a key: a lookup on objects (last binding for
the key, matching map semantics), `None` on every other value. -/
def objLookupLast : JObj → List Char → Option Json
  | .nil, _ => none
  | .cons k v tl, key =>
    match objLookupLast tl key with
    | some r => some r
    | none => if k == key then some v else none

def jsonLookup (v : Json) (key : List Char) : Option Json :=
  match v with
  | .obj kvs => objLookupLast kvs key
  | _ => none

/-- Model of `Value::as_str`. -/
def asStr : Json → Option (List Char)
  | .str s => some s
  | _ => none

/-- Model of `Value::as_array`. -/
def asArr : Json → Option JArr
  | .arr xs => some xs
  | _ => none

def arrToList : JArr → List Json
  | .nil => []
  | .cons v tl => v :: arrToList tl

def mediaTypeChars : List Char := "mediaType".data

def wasmMediaTypeChars : List Char := "application/wasm".data

def annotationsChars : List Char := "annotations".data

def titleChars : List Char := "org.opencontainers.image.title".data

def digestChars : List Char := "digest".data

def layersChars : List Char := "layers".data

def configChars : List Char := "config".data

def jsonExtChars : List Char := ['.', 'j', 's', 'o', 'n']

/-- Mirror of the `is_wasm` computation of `main` (src/main.rs:93-96):
`layer.get("mediaType").and_then(as_str).map(|m| m == "application/wasm").unwrap_or(false)`. -/
def layerIsWasm (layer : Json) : Bool :=
  match jsonLookup layer mediaTypeChars with
  | some j =>
    match asStr j with
    | some m => m == wasmMediaTypeChars
    | none => false
  | none => false

/-- Mirror of the annotation-title lookup of `main` (src/main.rs:99-101). -/
def layerTitle (layer : Json) : Option (List Char) :=
  match jsonLookup layer annotationsChars with
  | some a =>
    match jsonLookup a titleChars with
    | some t => asStr t
    | none => none
  | none => none

/-- Mirror of the filename derivation of `main` (src/main.rs:99-110). -/
def filenameFor (i : Nat) (layer : Json) : List Char :=
  match layerTitle layer with
  | some s =>
    match pathFileName s with
    | some f => f
    | none => s
  | none =>
    if layerIsWasm layer then
      "module_".data ++ natChars i ++ ".wasm".data
    else
      "blob_".data ++ natChars i

/-- Mirror of the digest extraction (`.get("digest").and_then(as_str)`). -/
def digestOf (j : Json) : Option (List Char) :=
  match jsonLookup j digestChars with
  | some d => asStr d
  | none => none

/-- Outcome of one HTTP GET: a transport failure, or a response with a
status and a body-read outcome. -/
inductive FetchResult where
  | sendErr (msg : List Char)
  | resp (status : Nat) (body : Except (List Char) (List Nat))

/-- The HTTP oracle: responses of the three endpoints the program uses. -/
structure World where
  manifest : FetchResult
  catalog : FetchResult
  blob : List Char → FetchResult

/-- Process environment: the four variables the program reads. -/
structure Env where
  registry : Option (List Char)
  pkgNamespace : Option (List Char)
  pkgName : Option (List Char)
  pkgVersion : Option (List Char)

/-- One HTTP request issued during a run. -/
inductive RequestKind where
  | manifest
  | catalog
  | blob (digest : List Char)
deriving DecidableEq

/-- Data written to one file: raw bytes (`write_all` of blob bytes) or a
Rust string (`fs::write` of serialized JSON). -/
inductive FileData where
  | bytes (bs : List Nat)
  | text (s : List Char)
deriving DecidableEq

structure FileEntry where
  path : List Char
  data : FileData
deriving DecidableEq

inductive RunResult where
  | ok
  | err (msg : List Char)
deriving DecidableEq

/-- Observable trace of a run: requests issued in order, directories
created, files written in order, and the process outcome. -/
structure RunTrace where
  requests : List RequestKind
  dirs : List (List Char)
  files : List FileEntry
  result : RunResult
deriving DecidableEq

/-- Model of `reqwest::StatusCode::is_success` (2xx). -/
def isSuccessStatus (status : Nat) : Bool := 200 ≤ status && status < 300

def envVarMissingMsg (v : List Char) : List Char :=
  v ++ " environment variable not set".data

def httpErrMsg (status : Nat) (text : List Char) : List Char :=
  "HTTP error ".data ++ natChars status ++ ": ".data ++ text

def blobErrMsg (digest : List Char) (status : Nat) : List Char :=
  "Failed to download blob ".data ++ digest ++ ": ".data ++ natChars status

def catalogDecodeErrMsg : List Char := "error decoding response body".data

def manifestParseErrMsg : List Char := "Failed to parse manifest JSON".data

def sendErrMsg (cause : List Char) : List Char :=
  "Failed to send request: ".data ++ cause

def blobSendErrMsg (digest cause : List Char) : List Char :=
  "Failed to download blob: ".data ++ digest ++ ": ".data ++ cause

def noTextMsg : List Char := "Could not get response text".data

/-- Mirror of `download_blob` (src/main.rs:150-195).  Returns the requests
issued, the files written, and the outcome. -/
def downloadBlob (w : World) (digest outputFilename outputDir : List Char) :
    List RequestKind × List FileEntry × RunResult :=
  match w.blob digest with
  | .sendErr e => ([.blob digest], [], .err (blobSendErrMsg digest e))
  | .resp status bodyRes =>
    if isSuccessStatus status then
      match bodyRes with
      | .error e => ([.blob digest], [], .err e)
      | .ok bytes =>
        let raw : FileEntry := ⟨outputDir ++ '/' :: outputFilename, .bytes bytes⟩
        let firstIsBrace : Bool :=
          match bytes with
          | b :: _ => b == 123
          | [] => false
        let prettyFiles : List FileEntry :=
          if listEndsWith outputFilename jsonExtChars || firstIsBrace then
            match utf8Decode bytes with
            | some chars =>
              match jsonParse chars with
              | some v =>
                  [⟨outputDir ++ '/' :: trimEndMatches jsonExtChars outputFilename ++
                      "_pretty.json".data, .text (printValue 0 v)⟩]
              | none => []
            | none => []
          else []
        ([.blob digest], raw :: prettyFiles, .ok)
    else
      ([.blob digest], [], .err (blobErrMsg digest status))

/-- Mirror of the layer loop of `main` (src/main.rs:90-128): entries
without a string digest are skipped; a failing download aborts. -/
def processLayers (w : World) (outputDir : List Char) (i : Nat) :
    List Json → List RequestKind × List FileEntry × RunResult
  | [] => ([], [], .ok)
  | layer :: rest =>
    match digestOf layer with
    | none => processLayers w outputDir (i + 1) rest
    | some d =>
      match downloadBlob w d (filenameFor i layer) outputDir with
      | (reqs, files, .ok) =>
        match processLayers w outputDir (i + 1) rest with
        | (reqs2, files2, res) => (reqs ++ reqs2, files ++ files2, res)
      | (reqs, files, .err e) => (reqs, files, .err e)

/-- Mirror of the config fallback of `main` (src/main.rs:130-144). -/
def processConfig (w : World) (outputDir : List Char) (manifest : Json) :
    List RequestKind × List FileEntry × RunResult :=
  match jsonLookup manifest configChars with
  | some config =>
    match digestOf config with
    | some d => downloadBlob w d "config.json".data outputDir
    | none => ([], [], .ok)
  | none => ([], [], .ok)

/-- Text of a response body as read by `Response::text` (lossy decode);
a failed body read falls back to the fixed string (src/main.rs:50). -/
def textOf (bodyRes : Except (List Char) (List Nat)) : List Char :=
  match bodyRes with
  | .ok body => lossyText body
  | .error _ => noTextMsg

/-- Mirror of the manifest-failure diagnostics and error (src/main.rs:48-74).
The catalog GET is issued; if its response has a success status, its body
is parsed as JSON with `?`, so a decode failure there replaces the
reported error. -/
def manifestFailure (w : World) (outputDir : List Char) (status : Nat)
    (bodyRes : Except (List Char) (List Nat)) : RunTrace :=
  let httpErr := httpErrMsg status (textOf bodyRes)
  match w.catalog with
  | .sendErr _ => ⟨[.manifest, .catalog], [outputDir], [], .err httpErr⟩
  | .resp cst cbody =>
    if isSuccessStatus cst then
      match cbody with
      | .error _ => ⟨[.manifest, .catalog], [outputDir], [], .err catalogDecodeErrMsg⟩
      | .ok cb =>
        match jsonOfBytes cb with
        | some _ => ⟨[.manifest, .catalog], [outputDir], [], .err httpErr⟩
        | none => ⟨[.manifest, .catalog], [outputDir], [], .err catalogDecodeErrMsg⟩
    else ⟨[.manifest, .catalog], [outputDir], [], .err httpErr⟩

/-- Mirror of `main` (src/main.rs:11-148). -/
def run (env : Env) (w : World) : RunTrace :=
  match env.registry with
  | none => ⟨[], [], [], .err (envVarMissingMsg "REGISTRY".data)⟩
  | some _ =>
  match env.pkgNamespace with
  | none => ⟨[], [], [], .err (envVarMissingMsg "PKG_NAMESPACE".data)⟩
  | some _ =>
  match env.pkgName with
  | none => ⟨[], [], [], .err (envVarMissingMsg "PKG_NAME".data)⟩
  | some name =>
  match env.pkgVersion with
  | none => ⟨[], [], [], .err (envVarMissingMsg "PKG_VERSION".data)⟩
  | some version =>
  let outputDir := name ++ '-' :: version
  match w.manifest with
  | .sendErr e => ⟨[.manifest], [outputDir], [], .err (sendErrMsg e)⟩
  | .resp status bodyRes =>
    if isSuccessStatus status then
      match bodyRes with
      | .error _ => ⟨[.manifest], [outputDir], [], .err manifestParseErrMsg⟩
      | .ok body =>
        match jsonOfBytes body with
        | none => ⟨[.manifest], [outputDir], [], .err manifestParseErrMsg⟩
        | some manifest =>
          let mfile : FileEntry :=
            ⟨outputDir ++ '/' :: "manifest.json".data, .text (printValue 0 manifest)⟩
          match (jsonLookup manifest layersChars).bind asArr with
          | some xs =>
            match processLayers w outputDir 0 (arrToList xs) with
            | (reqs, files, res) => ⟨.manifest :: reqs, [outputDir], mfile :: files, res⟩
          | none =>
            match processConfig w outputDir manifest with
            | (reqs, files, res) => ⟨.manifest :: reqs, [outputDir], mfile :: files, res⟩
    else manifestFailure w outputDir status bodyRes

/-- A blob endpoint answers with a success status and a readable body. -/
def blobSucceeds (w : World) (d : List Char) : Prop :=
  ∃ status body, w.blob d = .resp status (.ok body) ∧ isSuccessStatus status = true

/-- The diagnostic catalog request returns a success status but a body
that fails to decode as JSON (the one case whose outcome replaces the
reported manifest error). -/
def catalogDecodeFails (w : World) : Bool :=
  match w.catalog with
  | .sendErr _ => false
  | .resp cst cbody =>
    isSuccessStatus cst &&
      (match cbody with
       | .error _ => true
       | .ok cb => (jsonOfBytes cb).isNone)

/-- A list of characters that may legally follow a printed integer token
without extending it: anything not a digit and not a float continuation. -/
def numBoundary : List Char → Bool
  | [] => true
  | c :: _ => !(isDigitChar c || c == '.' || c == 'e' || c == 'E')

section Lemmas

theorem charBeq_false_of_toNat_ne {c d : Char} (h : c.toNat ≠ d.toNat) : (c == d) = false := by
  simp only [beq_eq_false_iff_ne, ne_eq]
  intro he
  exact h (by rw [he])

theorem digit_isDigitChar {d : Nat} (h : d < 10) : isDigitChar (digitToChar d) = true := by
  interval_cases d <;> decide

theorem digit_charDigit {d : Nat} (h : d < 10) : charDigit (digitToChar d) = d := by
  interval_cases d <;> decide

theorem isDigitChar_toNat {c : Char} (h : isDigitChar c = true) :
    48 ≤ c.toNat ∧ c.toNat ≤ 57 := by
  simp only [isDigitChar, Bool.and_eq_true, decide_eq_true_eq] at h
  exact h

theorem skipWs_cons_ws {c : Char} (h : wsChar c = true) (s : List Char) :
    skipWs (c :: s) = skipWs s := by
  simp [skipWs, h]

theorem skipWs_cons_not {c : Char} (h : wsChar c = false) (s : List Char) :
    skipWs (c :: s) = c :: s := by
  simp [skipWs, h]

theorem skipWs_nSpaces (k : Nat) (s : List Char) : skipWs (nSpaces k ++ s) = skipWs s := by
  induction k with
  | zero => simp [nSpaces]
  | succ k ih =>
    have : nSpaces (k + 1) = ' ' :: nSpaces k := by
      simp [nSpaces, List.replicate_succ]
    rw [this, List.cons_append, skipWs_cons_ws (by decide)]
    exact ih

theorem skipWs_idem (s : List Char) : skipWs (skipWs s) = skipWs s := by
  induction s with
  | nil => rfl
  | cons c r ih =>
    by_cases h : wsChar c = true
    · rw [skipWs_cons_ws h, ih]
    · have h2 : wsChar c = false := by simpa using h
      rw [skipWs_cons_not h2, skipWs_cons_not h2]

theorem natCharsAux_eq_digits (fuel : Nat) :
    ∀ n, n < 10 ^ fuel → natCharsAux fuel n = ((Nat.digits 10 n).map digitToChar).reverse := by
  induction fuel with
  | zero =>
    intro n hn
    interval_cases n
    simp [natCharsAux]
  | succ fuel ih =>
    intro n hn
    by_cases h0 : n = 0
    · simp [natCharsAux, h0]
    · have hd : Nat.digits 10 n = n % 10 :: Nat.digits 10 (n / 10) :=
        Nat.digits_def' (by norm_num) (Nat.pos_of_ne_zero h0)

      have hlt : n / 10 < 10 ^ fuel := by
        have : n < 10 * 10 ^ fuel := by
          calc n < 10 ^ (fuel + 1) := hn
          _ = 10 * 10 ^ fuel := by ring
        omega
      simp [natCharsAux, h0, hd, ih _ hlt]

theorem natChars_eq_digits (n : Nat) :
    natChars n = if n = 0 then [digitToChar 0]
      else ((Nat.digits 10 n).map digitToChar).reverse := by
  by_cases h0 : n = 0
  · simp [natChars, h0]
  · have := natCharsAux_eq_digits n n (Nat.lt_pow_self (by norm_num) n)
    simp [natChars, h0, this]

theorem natChars_all_digits (n : Nat) :
    ∀ c ∈ natChars n, ∃ d, d < 10 ∧ c = digitToChar d := by
  rw [natChars_eq_digits]
  by_cases h0 : n = 0
  · simp [h0]
    exact ⟨0, by norm_num, rfl⟩
  · simp only [h0, if_false, List.mem_reverse, List.mem_map]
    rintro c ⟨d, hd, rfl⟩
    exact ⟨d, Nat.digits_lt_base (by norm_num) hd, rfl⟩

theorem natChars_ne_nil (n : Nat) : natChars n ≠ [] := by
  rw [natChars_eq_digits]
  by_cases h0 : n = 0
  · simp [h0]
  · simp only [h0, if_false, ne_eq, List.reverse_eq_nil_iff, List.map_eq_nil_iff]
    exact Nat.digits_ne_nil_iff_ne_zero.mpr h0

theorem natChars_head_ne_zero {n : Nat} (h0 : n ≠ 0) :
    ∃ d t, d < 10 ∧ d ≠ 0 ∧ natChars n = digitToChar d :: t := by
  rw [natChars_eq_digits]
  simp only [h0, if_false]
  have hne : Nat.digits 10 n ≠ [] := Nat.digits_ne_nil_iff_ne_zero.mpr h0
  obtain ⟨L, d, hld⟩ := List.eq_nil_or_concat (Nat.digits 10 n) |>.resolve_left hne
  refine ⟨d, ((L.map digitToChar).reverse), ?_, ?_, ?_⟩
  · exact Nat.digits_lt_base (by norm_num) (by rw [hld]; simp)
  · have h1 := Nat.getLast_digit_ne_zero 10 h0
    have h2 : (Nat.digits 10 n).getLast? = some d := by
      rw [hld, List.concat_eq_append]
      exact List.getLast?_concat _
    rw [List.getLast?_eq_getLast _ hne, Option.some_inj] at h2
    rwa [h2] at h1
  · rw [hld]
    simp

theorem pDigits_map (D : List Nat) :
    ∀ acc rest, (∀ d ∈ D, d < 10) →
      (∀ c, rest.head? = some c → isDigitChar c = false) →
      pDigits acc (D.map digitToChar ++ rest) =
        (D.foldl (fun a d => a * 10 + d) acc, rest) := by
  induction D with
  | nil =>
    intro acc rest _ hrest
    match rest with
    | [] => rfl
    | c :: r => simp [pDigits, hrest c rfl]
  | cons d D ih =>
    intro acc rest hD hrest
    have hd : d < 10 := hD d (by simp)
    simp only [List.map_cons, List.cons_append, pDigits, digit_isDigitChar hd,
      if_true, digit_charDigit hd]
    exact ih _ rest (fun x hx => hD x (by simp [hx])) hrest

theorem foldl_reverse_digits (L : List Nat) :
    ∀ acc, L.reverse.foldl (fun a d => a * 10 + d) acc =
      acc * 10 ^ L.length + Nat.ofDigits 10 L := by
  induction L with
  | nil => intro acc; simp
  | cons d L ih =>
    intro acc
    simp only [List.reverse_cons, List.foldl_append, ih, List.foldl_cons, List.foldl_nil,
      Nat.ofDigits_cons, List.length_cons]
    ring

theorem numBoundary_parts {c : Char} {r : List Char} (h : numBoundary (c :: r) = true) :
    isDigitChar c = false ∧ (c == '.') = false ∧ (c == 'e') = false ∧ (c == 'E') = false := by
  simp only [numBoundary, Bool.not_eq_true', Bool.or_eq_false_iff] at h
  exact ⟨h.1.1.1, h.1.1.2, h.1.2, h.2⟩

theorem floatFollows_of_numBoundary {rest : List Char} (h : numBoundary rest = true) :
    floatFollows rest = false := by
  match rest with
  | [] => rfl
  | c :: r =>
    obtain ⟨_, h1, h2, h3⟩ := numBoundary_parts h
    simp [floatFollows, h1, h2, h3]

theorem isDigitChar_of_numBoundary {rest : List Char} (h : numBoundary rest = true) :
    ∀ c, rest.head? = some c → isDigitChar c = false := by
  intro c hc
  match rest, hc with
  | c :: r, hc =>
    rw [List.head?_cons, Option.some_inj] at hc
    subst hc
    exact (numBoundary_parts h).1

theorem digitChar_beq_zero {d : Nat} (h : d < 10) (h0 : d ≠ 0) :
    (digitToChar d == digitToChar 0) = false := by
  interval_cases d <;> simp_all <;> decide

theorem digitChar_ne_minus {c : Char} (h : isDigitChar c = true) : (c == '-') = false := by
  obtain ⟨h1, h2⟩ := isDigitChar_toNat h
  exact charBeq_false_of_toNat_ne (by intro he; rw [he] at h1 h2; simp at h1 h2)

theorem pNumAbs_natChars (m : Nat) (rest : List Char) (hrest : numBoundary rest = true) :
    pNumAbs (natChars m ++ rest) = some (m, rest) := by
  have hfloat := floatFollows_of_numBoundary hrest
  by_cases h0 : m = 0
  · subst h0
    have : natChars 0 = [digitToChar 0] := by rfl
    rw [this]
    simp only [List.cons_append, List.nil_append, pNumAbs, beq_self_eq_true, if_true]
    match rest, hrest with
    | [], _ => rfl
    | c :: r, hrest =>
      obtain ⟨hd, _, _, _⟩ := numBoundary_parts hrest
      simp [hd, hfloat]
  · obtain ⟨d, t, hd10, hdn0, hnc⟩ := natChars_head_ne_zero h0
    have hDfull : natChars m = ((Nat.digits 10 m).reverse).map digitToChar := by
      rw [natChars_eq_digits]
      simp [h0, List.map_reverse]
    obtain ⟨L, dlast, hld⟩ :=
      List.eq_nil_or_concat (Nat.digits 10 m) |>.resolve_left
        (Nat.digits_ne_nil_iff_ne_zero.mpr h0)
    have hrev : (Nat.digits 10 m).reverse = dlast :: L.reverse := by
      rw [hld, List.concat_eq_append, List.reverse_append]
      rfl
    have hnc2 : natChars m = digitToChar dlast :: (L.reverse).map digitToChar := by
      rw [hDfull, hrev, List.map_cons]
    have hdlast10 : dlast < 10 :=
      Nat.digits_lt_base (by norm_num) (by rw [hld]; simp)
    have hdlast0 : dlast ≠ 0 := by
      intro hc
      subst hc
      have hx := hnc2.symm.trans hnc
      injection hx with hx1 _
      interval_cases d <;> revert hx1 hdn0 <;> decide
    rw [hnc2]
    simp only [List.cons_append, pNumAbs, digitChar_beq_zero hdlast10 hdlast0, if_false,
      digit_isDigitChar hdlast10, if_true, digit_charDigit hdlast10]
    have hall : ∀ x ∈ L.reverse, x < 10 := by
      intro x hx
      exact Nat.digits_lt_base (by norm_num)
        (by rw [hld, List.concat_eq_append]; simp at hx ⊢; left; exact hx)
    rw [pDigits_map L.reverse _ rest hall (isDigitChar_of_numBoundary hrest)]
    have hfold : (L.reverse).foldl (fun a d => a * 10 + d) dlast = m := by
      rw [foldl_reverse_digits]
      have hm : m = Nat.ofDigits 10 (Nat.digits 10 m) := (Nat.ofDigits_digits 10 m).symm
      rw [hld, List.concat_eq_append, Nat.ofDigits_append] at hm
      simp only [Nat.ofDigits_cons, Nat.ofDigits_nil, mul_zero, add_zero] at hm
      rw [hm]
      ring
    rw [hfold]
    simp [hfloat]

theorem hexVal_hexDigitChar {m : Nat} (h : m < 16) : hexVal (hexDigitChar m) = some m := by
  interval_cases m <;> decide

theorem escString_length (s : List Char) : s.length ≤ (escString s).length := by
  induction s with
  | nil => simp [escString]
  | cons c s ih =>
    have h1 : 1 ≤ (escChar c).length := by
      unfold escChar
      repeat' split
      all_goals simp
    simp only [escString, List.length_append, List.length_cons]
    omega

theorem pString_escString (s : List Char) :
    ∀ fuel rest, s.length < fuel →
      pString fuel (escString s ++ quoteChar :: rest) = some (s, rest) := by
  induction s with
  | nil =>
    intro fuel rest hf
    match fuel, hf with
    | f + 1, _ => simp +decide [escString, pString]
  | cons c s ih =>
    intro fuel rest hf
    match fuel, hf with
    | f + 1, hf =>
    have hlen : s.length < f := by
      simp only [List.length_cons] at hf
      omega
    have ihh := ih f rest hlen
    rw [escString, List.append_assoc]
    by_cases h1 : (c == quoteChar) = true
    · have hc := eq_of_beq h1
      subst hc
      simp +decide [escChar, pString, escDecode, ihh]
    · by_cases h2 : (c == backslashChar) = true
      · have hc := eq_of_beq h2
        subst hc
        simp +decide [escChar, pString, escDecode, ihh]
      · replace h1 : (c == quoteChar) = false := by simpa using h1
        replace h2 : (c == backslashChar) = false := by simpa using h2
        by_cases h3 : c.toNat = 8
        · have hof : Char.ofNat 8 = c := by rw [← h3, Char.ofNat_toNat]
          simp +decide [escChar, h1, h2, h3, pString, escDecode, ihh, hof]
          all_goals exact hof
        · by_cases h4 : c.toNat = 9
          · have hof : Char.ofNat 9 = c := by rw [← h4, Char.ofNat_toNat]
            simp +decide [escChar, h1, h2, h3, h4, pString, escDecode, ihh, hof]
            all_goals exact hof
          · by_cases h5 : c.toNat = 10
            · have hof : Char.ofNat 10 = c := by rw [← h5, Char.ofNat_toNat]
              simp +decide [escChar, h1, h2, h3, h4, h5, pString, escDecode, ihh, hof]
              all_goals exact hof
            · by_cases h6 : c.toNat = 12
              · have hof : Char.ofNat 12 = c := by rw [← h6, Char.ofNat_toNat]
                simp +decide [escChar, h1, h2, h3, h4, h5, h6, pString, escDecode, ihh, hof]
                all_goals exact hof
              · by_cases h7 : c.toNat = 13
                · have hof : Char.ofNat 13 = c := by rw [← h7, Char.ofNat_toNat]
                  simp +decide [escChar, h1, h2, h3, h4, h5, h6, h7, pString, escDecode,
                    ihh, hof]
                  all_goals exact hof
                · by_cases h8 : c.toNat < 32
                  · have hdiv : c.toNat / 16 < 16 := by omega
                    have hmod : c.toNat % 16 < 16 := by omega
                    have hof : Char.ofNat c.toNat = c := Char.ofNat_toNat c
                    have hval : c.toNat / 16 * 16 + c.toNat % 16 = c.toNat := by omega
                    have hlow : c.toNat < 55296 := by omega
                    have h0v : hexVal '0' = some 0 := by decide
                    simp +decide [escChar, h1, h2, h3, h4, h5, h6, h7, h8, pString,
                      hexQuad, h0v, hexVal_hexDigitChar hdiv, hexVal_hexDigitChar hmod,
                      hval, hlow, ihh, hof]
                  · have h9 : 32 ≤ c.toNat := by omega
                    simp [escChar, h1, h2, h3, h4, h5, h6, h7, h8, pString, h9, ihh]

theorem pNumber_intChars (n : Int) (rest : List Char) (hrest : numBoundary rest = true) :
    pNumber (intChars n ++ rest) = some (n, rest) := by
  by_cases hneg : n < 0
  · have : intChars n = '-' :: natChars n.natAbs := by simp [intChars, hneg]
    rw [this]
    simp only [List.cons_append, pNumber, beq_self_eq_true, if_true,
      pNumAbs_natChars n.natAbs rest hrest]
    have hn : -((n.natAbs : Nat) : Int) = n := by omega
    rw [hn]
  · have : intChars n = natChars n.toNat := by simp [intChars, hneg]
    rw [this]
    obtain ⟨c, t, hct⟩ : ∃ c t, natChars n.toNat = c :: t := by
      match hx : natChars n.toNat with
      | [] => exact absurd hx (natChars_ne_nil _)
      | c :: t => exact ⟨c, t, rfl⟩
    have hcdig : isDigitChar c = true := by
      obtain ⟨d, hd10, hcd⟩ := natChars_all_digits n.toNat c (by rw [hct]; simp)
      rw [hcd]
      exact digit_isDigitChar hd10
    rw [hct]
    simp only [List.cons_append, pNumber, digitChar_ne_minus hcdig, if_false]
    rw [← List.cons_append, ← hct, pNumAbs_natChars n.toNat rest hrest]
    have hn : ((n.toNat : Nat) : Int) = n := Int.toNat_of_nonneg (by omega)
    simp [hn]

end Lemmas
theorem pValue_ws_cons {c : Char} (h : wsChar c = true) (fuel : Nat) (s : List Char) :
    pValue fuel (c :: s) = pValue fuel s := by
  cases fuel with
  | zero => rfl
  | succ f =>
    simp only [pValue, skipWs_cons_ws h]

theorem pValue_nSpaces (k : Nat) (fuel : Nat) (s : List Char) :
    pValue fuel (nSpaces k ++ s) = pValue fuel s := by
  cases fuel with
  | zero => rfl
  | succ f =>
    simp only [pValue, skipWs_nSpaces]

theorem pValue_skipWs (fuel : Nat) (s : List Char) :
    pValue fuel (skipWs s) = pValue fuel s := by
  cases fuel with
  | zero => rfl
  | succ f =>
    simp only [pValue, skipWs_idem]

theorem pItems_ws_cons {c : Char} (h : wsChar c = true) (fuel : Nat) (s : List Char) :
    pItems fuel (c :: s) = pItems fuel s := by
  cases fuel with
  | zero => rfl
  | succ f =>
    simp only [pItems, pValue_ws_cons h]

theorem pItems_nSpaces (k : Nat) (fuel : Nat) (s : List Char) :
    pItems fuel (nSpaces k ++ s) = pItems fuel s := by
  cases fuel with
  | zero => rfl
  | succ f =>
    simp only [pItems, pValue_nSpaces]

theorem pItems_skipWs (fuel : Nat) (s : List Char) :
    pItems fuel (skipWs s) = pItems fuel s := by
  cases fuel with
  | zero => rfl
  | succ f =>
    simp only [pItems, pValue_skipWs]

theorem pFields_ws_cons {c : Char} (h : wsChar c = true) (fuel : Nat) (s : List Char) :
    pFields fuel (c :: s) = pFields fuel s := by
  cases fuel with
  | zero => rfl
  | succ f =>
    simp only [pFields, skipWs_cons_ws h]

theorem pFields_nSpaces (k : Nat) (fuel : Nat) (s : List Char) :
    pFields fuel (nSpaces k ++ s) = pFields fuel s := by
  cases fuel with
  | zero => rfl
  | succ f =>
    simp only [pFields, skipWs_nSpaces]

theorem pFields_skipWs (fuel : Nat) (s : List Char) :
    pFields fuel (skipWs s) = pFields fuel s := by
  cases fuel with
  | zero => rfl
  | succ f =>
    simp only [pFields, skipWs_idem]
theorem beq_false_right {c d : Char} {m : Nat} (hd : d.toNat = m) (h : c.toNat ≠ m) :
    (c == d) = false :=
  charBeq_false_of_toNat_ne (by rw [hd]; exact h)

theorem digit_facts {c : Char} (h : isDigitChar c = true) :
    wsChar c = false ∧ (c == ']') = false ∧ (c == rbraceChar) = false ∧
      (c == '-') = false ∧ (c == quoteChar) = false ∧ (c == '[') = false ∧
      (c == lbraceChar) = false ∧ (c == 't') = false ∧ (c == 'f') = false ∧
      (c == 'n') = false := by
  obtain ⟨h1, h2⟩ := isDigitChar_toNat h
  refine ⟨?_, ?_, ?_, ?_, ?_, ?_, ?_, ?_, ?_, ?_⟩
  · have g1 : ¬ c = ' ' := fun hh => absurd (hh ▸ h1) (by decide)
    have g2 : ¬ c = Char.ofNat 10 := fun hh => absurd (hh ▸ h1) (by decide)
    have g3 : ¬ c = Char.ofNat 9 := fun hh => absurd (hh ▸ h1) (by decide)
    have g4 : ¬ c = Char.ofNat 13 := fun hh => absurd (hh ▸ h1) (by decide)
    simp [wsChar, g1, g2, g3, g4]
  · exact beq_false_right (show (']').toNat = 93 from rfl) (by omega)
  · exact beq_false_right (show rbraceChar.toNat = 125 from rfl) (by omega)
  · exact beq_false_right (show ('-').toNat = 45 from rfl) (by omega)
  · exact beq_false_right (show quoteChar.toNat = 34 from rfl) (by omega)
  · exact beq_false_right (show ('[').toNat = 91 from rfl) (by omega)
  · exact beq_false_right (show lbraceChar.toNat = 123 from rfl) (by omega)
  · exact beq_false_right (show ('t').toNat = 116 from rfl) (by omega)
  · exact beq_false_right (show ('f').toNat = 102 from rfl) (by omega)
  · exact beq_false_right (show ('n').toNat = 110 from rfl) (by omega)

theorem intChars_shape (n : Int) :
    ∃ c t, intChars n = c :: t ∧ wsChar c = false ∧ (c == ']') = false ∧
      (c == rbraceChar) = false ∧ (c == quoteChar) = false ∧ (c == '[') = false ∧
      (c == lbraceChar) = false ∧ (c == 't') = false ∧ (c == 'f') = false ∧
      (c == 'n') = false ∧ (c == '-' || isDigitChar c) = true := by
  by_cases hneg : n < 0
  · refine ⟨'-', natChars n.natAbs, by simp [intChars, hneg], ?_⟩
    refine ⟨by decide, by decide, by decide, by decide, by decide, by decide,
      by decide, by decide, by decide, by decide⟩
  · obtain ⟨c, t, hct⟩ : ∃ c t, natChars n.toNat = c :: t := by
      match hx : natChars n.toNat with
      | [] => exact absurd hx (natChars_ne_nil _)
      | c :: t => exact ⟨c, t, rfl⟩
    have hcdig : isDigitChar c = true := by
      obtain ⟨d, hd10, hcd⟩ := natChars_all_digits n.toNat c (by rw [hct]; simp)
      rw [hcd]
      exact digit_isDigitChar hd10
    obtain ⟨f1, f2, f3, _, f5, f6, f7, f8, f9, f10⟩ := digit_facts hcdig
    exact ⟨c, t, by simp [intChars, hneg, hct], f1, f2, f3, f5, f6, f7, f8, f9, f10,
      by simp [hcdig]⟩

theorem printValue_shape (ind : Nat) (v : Json) :
    ∃ c t, printValue ind v = c :: t ∧ wsChar c = false ∧ (c == ']') = false ∧
      (c == rbraceChar) = false := by
  match v with
  | .null => exact ⟨'n', _, rfl, by decide, by decide, by decide⟩
  | .bool true => exact ⟨'t', _, rfl, by decide, by decide, by decide⟩
  | .bool false => exact ⟨'f', _, rfl, by decide, by decide, by decide⟩
  | .num n =>
    obtain ⟨c, t, hct, f1, f2, f3, _⟩ := intChars_shape n
    exact ⟨c, t, by simp [printValue, hct], f1, f2, f3⟩
  | .str s => exact ⟨quoteChar, _, rfl, by decide, by decide, by decide⟩
  | .arr .nil => exact ⟨'[', _, rfl, by decide, by decide, by decide⟩
  | .arr (.cons v tl) => exact ⟨'[', _, rfl, by decide, by decide, by decide⟩
  | .obj .nil => exact ⟨lbraceChar, _, rfl, by decide, by decide, by decide⟩
  | .obj (.cons k v tl) => exact ⟨lbraceChar, _, rfl, by decide, by decide, by decide⟩
theorem printItems_cons_shape (ind : Nat) (v : Json) (tl : JArr) :
    ∃ y, printItems ind (.cons v tl) = nSpaces (2 * ind) ++ (printValue ind v ++ y) := by
  cases tl with
  | nil => exact ⟨[], by simp [printItems]⟩
  | cons w tl =>
    exact ⟨',' :: newlineChar :: printItems ind (.cons w tl), by simp [printItems]⟩

theorem printFields_cons_shape (ind : Nat) (k : List Char) (v : Json) (tl : JObj) :
    ∃ y, printFields ind (.cons k v tl) =
      nSpaces (2 * ind) ++ (quoteChar :: (escString k ++ quoteChar :: ':' :: ' ' ::
        (printValue ind v ++ y))) := by
  cases tl with
  | nil =>
    refine ⟨[], by simp [printFields]⟩
  | cons k2 w tl =>
    exact ⟨',' :: newlineChar :: printFields ind (.cons k2 w tl), by simp [printFields]⟩

theorem numBoundary_comma (z : List Char) : numBoundary (',' :: z) = true := by
  simp +decide [numBoundary]

theorem numBoundary_newline (z : List Char) : numBoundary (newlineChar :: z) = true := by
  simp +decide [numBoundary]
set_option maxHeartbeats 1000000 in
theorem parse_print_all : ∀ fuel,
    (∀ v ind rest, jsize v < fuel → numBoundary rest = true →
      pValue fuel (printValue ind v ++ rest) = some (v, rest)) ∧
    (∀ v tl ind rest, jsizeA (JArr.cons v tl) < fuel →
      pItems fuel (printItems (ind + 1) (JArr.cons v tl) ++
        newlineChar :: (nSpaces (2 * ind) ++ ']' :: rest)) = some (JArr.cons v tl, rest)) ∧
    (∀ k v tl ind rest, jsizeO (JObj.cons k v tl) < fuel →
      pFields fuel (printFields (ind + 1) (JObj.cons k v tl) ++
        newlineChar :: (nSpaces (2 * ind) ++ rbraceChar :: rest)) =
        some (JObj.cons k v tl, rest)) := by
  intro fuel
  induction fuel with
  | zero =>
    refine ⟨fun v ind rest h _ => absurd h (Nat.not_lt_zero _),
      fun v tl ind rest h => absurd h (Nat.not_lt_zero _),
      fun k v tl ind rest h => absurd h (Nat.not_lt_zero _)⟩
  | succ f ih =>
    obtain ⟨ihV, ihA, ihO⟩ := ih
    refine ⟨?_, ?_, ?_⟩
    · intro v ind rest hf hb
      match v with
      | .null =>
        have hpv : printValue ind Json.null = nullChars := rfl
        rw [hpv]
        simp +decide [nullChars, pValue, skipWs, dropPat]
      | .bool true =>
        have hpv : printValue ind (Json.bool true) = trueChars := rfl
        rw [hpv]
        simp +decide [trueChars, pValue, skipWs, dropPat]
      | .bool false =>
        have hpv : printValue ind (Json.bool false) = falseChars := rfl
        rw [hpv]
        simp +decide [falseChars, pValue, skipWs, dropPat]
      | .num n =>
        obtain ⟨c, t, hct, f1, f2, f3, f5, f6, f7, f8, f9, f10, f11⟩ := intChars_shape n
        have hnum := pNumber_intChars n rest hb
        have hpv : printValue ind (Json.num n) = intChars n := rfl
        rw [hpv, hct, List.cons_append]
        simp only [pValue, skipWs_cons_not f1, f5, f6, f7, f8, f9, f10, f11,
          Bool.false_eq_true, if_false, if_true]
        rw [← List.cons_append, ← hct, hnum]
      | .str s =>
        have hpv : printValue ind (Json.str s) = quoteChar :: escString s ++ [quoteChar] := rfl
        rw [hpv]
        have hs : (quoteChar :: escString s ++ [quoteChar]) ++ rest =
            quoteChar :: (escString s ++ quoteChar :: rest) := by simp
        rw [hs]
        have hlen : s.length < (escString s ++ quoteChar :: rest).length + 1 := by
          have := escString_length s
          simp only [List.length_append, List.length_cons]
          omega
        simp only [pValue, skipWs_cons_not (by decide : wsChar quoteChar = false),
          beq_self_eq_true, if_true, pString_escString s _ rest hlen]
      | .arr .nil =>
        have hpv : printValue ind (Json.arr JArr.nil) = ['[', ']'] := rfl
        rw [hpv]
        simp +decide [pValue, skipWs]
      | .arr (.cons v tl) =>
        have hpv : printValue ind (Json.arr (JArr.cons v tl)) =
            '[' :: newlineChar :: printItems (ind + 1) (JArr.cons v tl) ++
              newlineChar :: nSpaces (2 * ind) ++ [']'] := rfl
        rw [hpv]
        have hnorm : (('[' :: newlineChar :: printItems (ind + 1) (JArr.cons v tl) ++
            newlineChar :: nSpaces (2 * ind) ++ [']']) ++ rest) =
            '[' :: newlineChar :: (printItems (ind + 1) (JArr.cons v tl) ++
              newlineChar :: (nSpaces (2 * ind) ++ ']' :: rest)) := by simp
        rw [hnorm]
        set X := printItems (ind + 1) (JArr.cons v tl) ++
          newlineChar :: (nSpaces (2 * ind) ++ ']' :: rest) with hXdef
        obtain ⟨y, hy⟩ := printItems_cons_shape (ind + 1) v tl
        obtain ⟨c0, t0, hv0, hws0, hbr0, _⟩ := printValue_shape (ind + 1) v
        have hskipX : skipWs X =
            c0 :: (t0 ++ (y ++ newlineChar :: (nSpaces (2 * ind) ++ ']' :: rest))) := by
          rw [hXdef, hy, List.append_assoc, skipWs_nSpaces, List.append_assoc, hv0,
            List.cons_append, skipWs_cons_not hws0]
        have hfA : jsizeA (JArr.cons v tl) < f := by
          have h2 := hf
          simp only [jsize] at h2
          omega
        have hitems : pItems f X = some (JArr.cons v tl, rest) := ihA v tl ind rest hfA
        simp only [pValue, skipWs_cons_not (by decide : wsChar '[' = false),
          (by decide : ('[' == quoteChar) = false),
          (by decide : ('[' == '[') = true), Bool.false_eq_true, if_false, if_true,
          skipWs_cons_ws (by decide : wsChar newlineChar = true), hskipX, hbr0]
        rw [← hskipX, pItems_skipWs, hitems]
      | .obj .nil =>
        have hpv : printValue ind (Json.obj JObj.nil) = [lbraceChar, rbraceChar] := rfl
        rw [hpv]
        simp +decide [pValue, skipWs]
      | .obj (.cons k v tl) =>
        have hpv : printValue ind (Json.obj (JObj.cons k v tl)) =
            lbraceChar :: newlineChar :: printFields (ind + 1) (JObj.cons k v tl) ++
              newlineChar :: nSpaces (2 * ind) ++ [rbraceChar] := rfl
        rw [hpv]
        have hnorm : ((lbraceChar :: newlineChar :: printFields (ind + 1) (JObj.cons k v tl) ++
            newlineChar :: nSpaces (2 * ind) ++ [rbraceChar]) ++ rest) =
            lbraceChar :: newlineChar :: (printFields (ind + 1) (JObj.cons k v tl) ++
              newlineChar :: (nSpaces (2 * ind) ++ rbraceChar :: rest)) := by simp
        rw [hnorm]
        set X := printFields (ind + 1) (JObj.cons k v tl) ++
          newlineChar :: (nSpaces (2 * ind) ++ rbraceChar :: rest) with hXdef
        obtain ⟨y, hy⟩ := printFields_cons_shape (ind + 1) k v tl
        have hskipX : skipWs X =
            quoteChar :: ((escString k ++ quoteChar :: ':' :: ' ' :: (printValue (ind + 1) v ++ y)) ++
              newlineChar :: (nSpaces (2 * ind) ++ rbraceChar :: rest)) := by
          rw [hXdef, hy, List.append_assoc, skipWs_nSpaces, List.cons_append,
            skipWs_cons_not (by decide : wsChar quoteChar = false)]
        have hfO : jsizeO (JObj.cons k v tl) < f := by
          have h2 := hf
          simp only [jsize] at h2
          omega
        have hfields : pFields f X = some (JObj.cons k v tl, rest) := ihO k v tl ind rest hfO
        simp only [pValue, skipWs_cons_not (by decide : wsChar lbraceChar = false),
          (by decide : (lbraceChar == quoteChar) = false),
          (by decide : (lbraceChar == '[') = false),
          (by decide : (lbraceChar == lbraceChar) = true),
          (by decide : (quoteChar == rbraceChar) = false),
          Bool.false_eq_true, if_false, if_true,
          skipWs_cons_ws (by decide : wsChar newlineChar = true), hskipX]
        rw [← hskipX, pFields_skipWs, hfields]
    · intro v tl ind rest hfA
      cases tl with
      | nil =>
        have hpi : printItems (ind + 1) (JArr.cons v JArr.nil) =
            nSpaces (2 * (ind + 1)) ++ printValue (ind + 1) v := rfl
        rw [hpi, List.append_assoc]
        have hfv : jsize v < f := by
          simp only [jsizeA] at hfA
          omega
        have hval := ihV v (ind + 1) (newlineChar :: (nSpaces (2 * ind) ++ ']' :: rest)) hfv
          (numBoundary_newline _)
        simp only [pItems, pValue_nSpaces, hval,
          skipWs_cons_ws (by decide : wsChar newlineChar = true), skipWs_nSpaces,
          skipWs_cons_not (by decide : wsChar ']' = false),
          (by decide : ((']' : Char) == ',') = false),
          (by decide : ((']' : Char) == ']') = true),
          Bool.false_eq_true, if_false, if_true]
      | cons w tl =>
        have hpi : printItems (ind + 1) (JArr.cons v (JArr.cons w tl)) =
            nSpaces (2 * (ind + 1)) ++ printValue (ind + 1) v ++
              ',' :: newlineChar :: printItems (ind + 1) (JArr.cons w tl) := rfl
        rw [hpi]
        have hnorm : ((nSpaces (2 * (ind + 1)) ++ printValue (ind + 1) v ++
            ',' :: newlineChar :: printItems (ind + 1) (JArr.cons w tl)) ++
              newlineChar :: (nSpaces (2 * ind) ++ ']' :: rest)) =
            nSpaces (2 * (ind + 1)) ++ (printValue (ind + 1) v ++
              ',' :: (newlineChar :: (printItems (ind + 1) (JArr.cons w tl) ++
                newlineChar :: (nSpaces (2 * ind) ++ ']' :: rest)))) := by simp
        rw [hnorm]
        have hfv : jsize v < f := by
          simp only [jsizeA] at hfA
          omega
        have hfw : jsizeA (JArr.cons w tl) < f := by
          simp only [jsizeA] at hfA ⊢
          omega
        have hval := ihV v (ind + 1) (',' :: (newlineChar :: (printItems (ind + 1)
          (JArr.cons w tl) ++ newlineChar :: (nSpaces (2 * ind) ++ ']' :: rest)))) hfv
          (numBoundary_comma _)
        have hrec := ihA w tl ind rest hfw
        simp only [pItems, pValue_nSpaces, hval,
          skipWs_cons_not (by decide : wsChar ',' = false),
          (by decide : ((',' : Char) == ',') = true), if_true,
          pItems_ws_cons (by decide : wsChar newlineChar = true), hrec]
    · intro k v tl ind rest hfO
      have hfv : jsize v < f := by
        cases tl <;> simp only [jsizeO] at hfO <;> omega
      obtain ⟨y, hy⟩ := printFields_cons_shape (ind + 1) k v tl
      rw [hy, List.append_assoc]
      have hklen : ∀ z : List Char,
          k.length < (escString k ++ quoteChar :: z).length + 1 := by
        intro z
        have := escString_length k
        simp only [List.length_append, List.length_cons]
        omega
      cases tl with
      | nil =>
        have hy0 : y = [] := by
          have h2 := printFields_cons_shape (ind + 1) k v JObj.nil
          have : printFields (ind + 1) (JObj.cons k v JObj.nil) =
              nSpaces (2 * (ind + 1)) ++ (quoteChar :: (escString k ++ quoteChar :: ':' ::
                ' ' :: (printValue (ind + 1) v ++ []))) := by
            simp [printFields]
          rw [this] at hy
          have := List.append_cancel_left hy
          simp at this
          simp [this]
        subst hy0
        have hval := ihV v (ind + 1)
          (newlineChar :: (nSpaces (2 * ind) ++ rbraceChar :: rest)) hfv
          (numBoundary_newline _)
        have hstr := pString_escString k
          ((escString k ++ quoteChar :: (':' :: ' ' :: (printValue (ind + 1) v ++
            newlineChar :: (nSpaces (2 * ind) ++ rbraceChar :: rest)))).length + 1)
          (':' :: ' ' :: (printValue (ind + 1) v ++
            newlineChar :: (nSpaces (2 * ind) ++ rbraceChar :: rest))) (hklen _)
        simp only [pFields, skipWs_nSpaces, List.cons_append,
          skipWs_cons_not (by decide : wsChar quoteChar = false),
          beq_self_eq_true, if_true, List.append_assoc, List.nil_append, List.append_nil]
        rw [hstr]
        simp only [skipWs_cons_not (by decide : wsChar ':' = false),
          (by decide : ((':' : Char) == ':') = true), if_true,
          pValue_ws_cons (by decide : wsChar ' ' = true), List.append_nil, hval,
          skipWs_cons_ws (by decide : wsChar newlineChar = true), skipWs_nSpaces,
          skipWs_cons_not (by decide : wsChar rbraceChar = false),
          (by decide : (rbraceChar == ',') = false),
          (by decide : (rbraceChar == rbraceChar) = true),
          Bool.false_eq_true, if_false, if_true]
      | cons k2 w tl =>
        have hy0 : y = ',' :: newlineChar :: printFields (ind + 1) (JObj.cons k2 w tl) := by
          have : printFields (ind + 1) (JObj.cons k v (JObj.cons k2 w tl)) =
              nSpaces (2 * (ind + 1)) ++ (quoteChar :: (escString k ++ quoteChar :: ':' ::
                ' ' :: (printValue (ind + 1) v ++
                  (',' :: newlineChar :: printFields (ind + 1) (JObj.cons k2 w tl))))) := by
            simp [printFields]
          rw [this] at hy
          have := List.append_cancel_left hy
          simp at this
          simp [this]
        subst hy0
        have hfw : jsizeO (JObj.cons k2 w tl) < f := by
          simp only [jsizeO] at hfO ⊢
          omega
        have hval := ihV v (ind + 1)
          (',' :: (newlineChar :: (printFields (ind + 1) (JObj.cons k2 w tl) ++
            newlineChar :: (nSpaces (2 * ind) ++ rbraceChar :: rest)))) hfv
          (numBoundary_comma _)
        have hrec := ihO k2 w tl ind rest hfw
        have hstr := pString_escString k
          ((escString k ++ quoteChar :: (':' :: ' ' :: (printValue (ind + 1) v ++
            ',' :: (newlineChar :: (printFields (ind + 1) (JObj.cons k2 w tl) ++
              newlineChar :: (nSpaces (2 * ind) ++ rbraceChar :: rest)))))).length + 1)
          (':' :: ' ' :: (printValue (ind + 1) v ++
            ',' :: (newlineChar :: (printFields (ind + 1) (JObj.cons k2 w tl) ++
              newlineChar :: (nSpaces (2 * ind) ++ rbraceChar :: rest))))) (hklen _)
        simp only [pFields, skipWs_nSpaces, List.cons_append,
          skipWs_cons_not (by decide : wsChar quoteChar = false),
          beq_self_eq_true, if_true, List.append_assoc]
        rw [hstr]
        simp only [skipWs_cons_not (by decide : wsChar ':' = false),
          (by decide : ((':' : Char) == ':') = true), if_true,
          pValue_ws_cons (by decide : wsChar ' ' = true), hval,
          skipWs_cons_not (by decide : wsChar ',' = false),
          (by decide : ((',' : Char) == ',') = true),
          pFields_ws_cons (by decide : wsChar newlineChar = true), hrec]
theorem intChars_length_pos (n : Int) : 1 ≤ (intChars n).length := by
  unfold intChars
  split
  · simp
  · have := natChars_ne_nil n.toNat
    cases hx : natChars n.toNat with
    | nil => exact absurd hx this
    | cons c t => simp [hx]

theorem jsize_le_length : ∀ N : Nat,
    (∀ v, jsize v ≤ N → ∀ ind, jsize v ≤ (printValue ind v).length) ∧
    (∀ v tl, jsizeA (JArr.cons v tl) ≤ N →
      ∀ ind, jsizeA (JArr.cons v tl) ≤ (printItems (ind + 1) (JArr.cons v tl)).length + 1) ∧
    (∀ k v tl, jsizeO (JObj.cons k v tl) ≤ N →
      ∀ ind, jsizeO (JObj.cons k v tl) ≤ (printFields (ind + 1) (JObj.cons k v tl)).length + 1) := by
  intro N
  induction N with
  | zero =>
    refine ⟨?_, ?_, ?_⟩
    · intro v h
      cases v <;> simp [jsize] at h
    · intro v tl h
      simp [jsizeA] at h
    · intro k v tl h
      simp [jsizeO] at h
  | succ N ih =>
    obtain ⟨ih1, ih2, ih3⟩ := ih
    refine ⟨?_, ?_, ?_⟩
    · intro v hv ind
      match v with
      | .null => simp [jsize, printValue, nullChars]
      | .bool true => simp [jsize, printValue, trueChars]
      | .bool false => simp [jsize, printValue, falseChars]
      | .num n =>
        have := intChars_length_pos n
        have hp : printValue ind (Json.num n) = intChars n := rfl
        rw [hp]
        simp only [jsize]
        omega
      | .str s =>
        have hp : printValue ind (Json.str s) = quoteChar :: escString s ++ [quoteChar] := rfl
        rw [hp]
        simp [jsize]
      | .arr .nil => simp [jsize, jsizeA, printValue]
      | .arr (.cons v tl) =>
        have hA : jsizeA (JArr.cons v tl) ≤ N := by
          simp only [jsize] at hv
          omega
        have h2 := ih2 v tl hA ind
        have hp : printValue ind (Json.arr (JArr.cons v tl)) =
            '[' :: newlineChar :: printItems (ind + 1) (JArr.cons v tl) ++
              newlineChar :: nSpaces (2 * ind) ++ [']'] := rfl
        rw [hp]
        simp only [jsize, List.length_append, List.length_cons, List.length_singleton]
        omega
      | .obj .nil => simp [jsize, jsizeO, printValue]
      | .obj (.cons k v tl) =>
        have hO : jsizeO (JObj.cons k v tl) ≤ N := by
          simp only [jsize] at hv
          omega
        have h2 := ih3 k v tl hO ind
        have hp : printValue ind (Json.obj (JObj.cons k v tl)) =
            lbraceChar :: newlineChar :: printFields (ind + 1) (JObj.cons k v tl) ++
              newlineChar :: nSpaces (2 * ind) ++ [rbraceChar] := rfl
        rw [hp]
        simp only [jsize, List.length_append, List.length_cons, List.length_singleton]
        omega
    · intro v tl hA ind
      cases tl with
      | nil =>
        have hv : jsize v ≤ N := by
          simp only [jsizeA] at hA
          omega
        have h1 := ih1 v hv (ind + 1)
        have hp : printItems (ind + 1) (JArr.cons v JArr.nil) =
            nSpaces (2 * (ind + 1)) ++ printValue (ind + 1) v := rfl
        rw [hp]
        simp only [jsizeA, List.length_append, nSpaces, List.length_replicate]
        omega
      | cons w tl =>
        have hv : jsize v ≤ N := by
          simp only [jsizeA] at hA
          omega
        have hw : jsizeA (JArr.cons w tl) ≤ N := by
          simp only [jsizeA] at hA ⊢
          omega
        have h1 := ih1 v hv (ind + 1)
        have h2 := ih2 w tl hw ind
        have hp : printItems (ind + 1) (JArr.cons v (JArr.cons w tl)) =
            nSpaces (2 * (ind + 1)) ++ printValue (ind + 1) v ++
              ',' :: newlineChar :: printItems (ind + 1) (JArr.cons w tl) := rfl
        rw [hp]
        simp only [jsizeA, List.length_append, List.length_cons, nSpaces,
          List.length_replicate] at h2 ⊢
        omega
    · intro k v tl hO ind
      cases tl with
      | nil =>
        have hv : jsize v ≤ N := by
          simp only [jsizeO] at hO
          omega
        have h1 := ih1 v hv (ind + 1)
        have hp : printFields (ind + 1) (JObj.cons k v JObj.nil) =
            nSpaces (2 * (ind + 1)) ++ quoteChar :: escString k ++ quoteChar :: ':' :: ' ' ::
              printValue (ind + 1) v := rfl
        rw [hp]
        simp only [jsizeO, List.length_append, List.length_cons, nSpaces,
          List.length_replicate]
        omega
      | cons k2 w tl =>
        have hv : jsize v ≤ N := by
          simp only [jsizeO] at hO
          omega
        have hw : jsizeO (JObj.cons k2 w tl) ≤ N := by
          simp only [jsizeO] at hO ⊢
          omega
        have h1 := ih1 v hv (ind + 1)
        have h2 := ih3 k2 w tl hw ind
        have hp : printFields (ind + 1) (JObj.cons k v (JObj.cons k2 w tl)) =
            nSpaces (2 * (ind + 1)) ++ quoteChar :: escString k ++ quoteChar :: ':' :: ' ' ::
              printValue (ind + 1) v ++ ',' :: newlineChar ::
                printFields (ind + 1) (JObj.cons k2 w tl) := rfl
        rw [hp]
        simp only [jsizeO, List.length_append, List.length_cons, nSpaces,
          List.length_replicate] at h2 ⊢
        omega

/-- Round trip of the `serde_json` model: re-parsing a pretty-printed
value recovers exactly that value. -/
theorem jsonParse_printValue (v : Json) : jsonParse (printValue 0 v) = some v := by
  have hlen := (jsize_le_length (jsize v)).1 v le_rfl 0
  have h := (parse_print_all ((printValue 0 v).length + 1)).1 v 0 [] (by omega) rfl
  rw [List.append_nil] at h
  simp [jsonParse, h, skipWs]
theorem downloadBlob_requests (w : World) (d fn o : List Char) :
    (downloadBlob w d fn o).1 = [RequestKind.blob d] := by
  unfold downloadBlob
  cases hx : w.blob d with
  | sendErr e => rfl
  | resp status bodyRes =>
    by_cases hs : isSuccessStatus status = true
    · cases bodyRes with
      | error e => simp [hs]
      | ok bytes => simp [hs]
    · simp only [Bool.not_eq_true] at hs
      simp [hs]

theorem downloadBlob_ok_shape (w : World) (d fn o : List Char) (hd : blobSucceeds w d) :
    ∃ files, downloadBlob w d fn o = ([RequestKind.blob d], files, RunResult.ok) := by
  obtain ⟨status, body, hb, hs⟩ := hd
  unfold downloadBlob
  rw [hb]
  simp only [hs, if_true]
  exact ⟨_, rfl⟩

theorem downloadBlob_err_shape (w : World) (d fn o : List Char) (status : Nat)
    (bodyRes : Except (List Char) (List Nat)) (hb : w.blob d = .resp status bodyRes)
    (hs : isSuccessStatus status = false) :
    downloadBlob w d fn o = ([RequestKind.blob d], [], .err (blobErrMsg d status)) := by
  unfold downloadBlob
  rw [hb]
  simp [hs]

theorem downloadBlob_ok_inv (w : World) (d fn o : List Char)
    (h : (downloadBlob w d fn o).2.2 = RunResult.ok) : blobSucceeds w d := by
  unfold downloadBlob at h
  cases hx : w.blob d with
  | sendErr e =>
    rw [hx] at h
    simp at h
  | resp status bodyRes =>
    rw [hx] at h
    by_cases hs : isSuccessStatus status = true
    · cases bodyRes with
      | error e => simp [hs] at h
      | ok bytes => exact ⟨status, bytes, hx, hs⟩
    · simp only [Bool.not_eq_true] at hs
      simp [hs] at h

theorem processLayers_requests_blob (w : World) (o : List Char) :
    ∀ (L : List Json) (i : Nat) (req : RequestKind), req ∈ (processLayers w o i L).1 →
      ∃ d, req = RequestKind.blob d := by
  intro L
  induction L with
  | nil => intro i req h; simp [processLayers] at h
  | cons layer rest ih =>
    intro i req h
    cases hd : digestOf layer with
    | none =>
      simp only [processLayers, hd] at h
      exact ih (i + 1) req h
    | some d =>
      simp only [processLayers, hd] at h
      rcases hdb : downloadBlob w d (filenameFor i layer) o with ⟨reqs, files, res⟩
      have hreq : reqs = [RequestKind.blob d] := by
        have h2 := downloadBlob_requests w d (filenameFor i layer) o
        rw [hdb] at h2
        exact h2
      rw [hdb] at h
      cases res with
      | ok =>
        rcases hrec : processLayers w o (i + 1) rest with ⟨reqs2, files2, res2⟩
        rw [hrec] at h
        simp only [List.mem_append] at h
        rcases h with h | h
        · rw [hreq] at h
          simp at h
          exact ⟨d, h⟩
        · exact ih (i + 1) req (by rw [hrec]; exact h)
      | err e =>
        rw [hreq] at h
        simp at h
        exact ⟨d, h⟩

theorem processLayers_ok_blobSucceeds (w : World) (o : List Char) :
    ∀ (L : List Json) (i : Nat), (processLayers w o i L).2.2 = RunResult.ok →
      ∀ d, RequestKind.blob d ∈ (processLayers w o i L).1 → blobSucceeds w d := by
  intro L
  induction L with
  | nil => intro i _ d h; simp [processLayers] at h
  | cons layer rest ih =>
    intro i hok d h
    cases hd : digestOf layer with
    | none =>
      simp only [processLayers, hd] at h hok
      exact ih (i + 1) hok d h
    | some d2 =>
      simp only [processLayers, hd] at h hok
      rcases hdb : downloadBlob w d2 (filenameFor i layer) o with ⟨reqs, files, res⟩
      have hreq : reqs = [RequestKind.blob d2] := by
        have h2 := downloadBlob_requests w d2 (filenameFor i layer) o
        rw [hdb] at h2
        exact h2
      rw [hdb] at h hok
      cases res with
      | ok =>
        rcases hrec : processLayers w o (i + 1) rest with ⟨reqs2, files2, res2⟩
        rw [hrec] at h hok
        simp only [List.mem_append] at h
        rcases h with h | h
        · have heq : d = d2 := by
            rw [hreq] at h
            simpa using h
          rw [heq]
          exact downloadBlob_ok_inv w d2 (filenameFor i layer) o (by rw [hdb])
        · exact ih (i + 1) (by rw [hrec]; exact hok) d (by rw [hrec]; exact h)
      | err e => simp at hok

theorem processConfig_requests_blob (w : World) (o : List Char) (m : Json)
    (req : RequestKind) (h : req ∈ (processConfig w o m).1) :
    ∃ d, req = RequestKind.blob d := by
  cases hc : jsonLookup m configChars with
  | none => simp only [processConfig, hc] at h; simp at h
  | some config =>
    cases hd : digestOf config with
    | none => simp only [processConfig, hc, hd] at h; simp at h
    | some d =>
      simp only [processConfig, hc, hd] at h
      have h2 := downloadBlob_requests w d "config.json".data o
      rcases hdb : downloadBlob w d "config.json".data o with ⟨reqs, files, res⟩
      rw [hdb] at h h2
      rw [h2] at h
      simp at h
      exact ⟨d, h⟩

theorem processConfig_ok_blobSucceeds (w : World) (o : List Char) (m : Json)
    (hok : (processConfig w o m).2.2 = RunResult.ok) (d : List Char)
    (h : RequestKind.blob d ∈ (processConfig w o m).1) : blobSucceeds w d := by
  cases hc : jsonLookup m configChars with
  | none => simp only [processConfig, hc] at h; simp at h
  | some config =>
    cases hd : digestOf config with
    | none => simp only [processConfig, hc, hd] at h; simp at h
    | some d2 =>
      simp only [processConfig, hc, hd] at h hok
      have h2 := downloadBlob_requests w d2 "config.json".data o
      rcases hdb : downloadBlob w d2 "config.json".data o with ⟨reqs, files, res⟩
      rw [hdb] at h h2 hok
      rw [h2] at h
      have heq : d = d2 := by simpa using h
      rw [heq]
      exact downloadBlob_ok_inv w d2 "config.json".data o (by rw [hdb]; exact hok)

theorem manifestFailure_shape (w : World) (o : List Char) (status : Nat)
    (bodyRes : Except (List Char) (List Nat)) :
    manifestFailure w o status bodyRes =
      ⟨[RequestKind.manifest, RequestKind.catalog], [o], [],
       .err (if catalogDecodeFails w then catalogDecodeErrMsg
             else httpErrMsg status (textOf bodyRes))⟩ := by
  unfold manifestFailure catalogDecodeFails
  cases hc : w.catalog with
  | sendErr e => simp
  | resp cst cbody =>
    by_cases hcs : isSuccessStatus cst = true
    · cases cbody with
      | error e => simp [hcs]
      | ok cb =>
        cases hj : jsonOfBytes cb with
        | some vv => simp [hcs, hj]
        | none => simp [hcs, hj]
    · simp only [Bool.not_eq_true] at hcs
      simp [hcs]
/-- C7: a layer entry whose digest field is absent or not a JSON string is
skipped without error and without issuing a blob request; processing
continues with the remaining layer entries at the next index. -/
theorem spec_c7_skip_digestless (w : World) (outputDir : List Char) (i : Nat)
    (layer : Json) (rest : List Json) (h : digestOf layer = none) :
    processLayers w outputDir i (layer :: rest) = processLayers w outputDir (i + 1) rest := by
  simp only [processLayers, h]

/-- C7 witness: a concrete digest-less layer is skipped. -/
theorem spec_c7_skip_digestless_witness :
    digestOf (Json.obj JObj.nil) = none ∧
      processLayers ⟨.sendErr [], .sendErr [], fun _ => .sendErr []⟩ ['o'] 0
          [Json.obj JObj.nil] =
        processLayers ⟨.sendErr [], .sendErr [], fun _ => .sendErr []⟩ ['o'] 1 [] :=
  ⟨rfl, spec_c7_skip_digestless _ ['o'] 0 (Json.obj JObj.nil) [] rfl⟩

/-- C10: a layer whose annotation title is a string with no extractable
final path component (such as a bare slash or a parent-directory
reference) gets the full title string verbatim as its output filename. -/
theorem spec_c10_title_verbatim (i : Nat) (layer : Json) (s : List Char)
    (h1 : layerTitle layer = some s) (h2 : pathFileName s = none) :
    filenameFor i layer = s := by
  simp only [filenameFor, h1, h2]

/-- C10 witness: a title that is a bare slash is used verbatim. -/
theorem spec_c10_title_verbatim_witness :
    layerTitle (Json.obj (JObj.cons "annotations".data
        (Json.obj (JObj.cons "org.opencontainers.image.title".data
          (Json.str ['/']) JObj.nil)) JObj.nil)) = some ['/'] ∧
      pathFileName ['/'] = none ∧
      filenameFor 0 (Json.obj (JObj.cons "annotations".data
        (Json.obj (JObj.cons "org.opencontainers.image.title".data
          (Json.str ['/']) JObj.nil)) JObj.nil)) = ['/'] :=
  ⟨rfl, rfl, spec_c10_title_verbatim 0 _ ['/'] rfl rfl⟩

/-- C4: a layer whose annotation title is the string `foo/bar.wasm` gets
output filename exactly `bar.wasm`: only the final path segment is kept. -/
theorem spec_c4_title_basename (i : Nat) (layer : Json)
    (h : layerTitle layer = some "foo/bar.wasm".data) :
    filenameFor i layer = "bar.wasm".data := by
  have hp : pathFileName "foo/bar.wasm".data = some "bar.wasm".data := by rfl
  simp only [filenameFor, h, hp]

/-- C4 witness: a concrete layer carrying the title `foo/bar.wasm`. -/
theorem spec_c4_title_basename_witness :
    layerTitle (Json.obj (JObj.cons "annotations".data
        (Json.obj (JObj.cons "org.opencontainers.image.title".data
          (Json.str "foo/bar.wasm".data) JObj.nil)) JObj.nil)) =
        some "foo/bar.wasm".data ∧
      filenameFor 7 (Json.obj (JObj.cons "annotations".data
        (Json.obj (JObj.cons "org.opencontainers.image.title".data
          (Json.str "foo/bar.wasm".data) JObj.nil)) JObj.nil)) = "bar.wasm".data :=
  ⟨rfl, spec_c4_title_basename 7 _ rfl⟩
/-- C3: for a layer with a digest but no usable annotation title, the
derived filename is `module_<index>.wasm` exactly when the mediaType
string equals `application/wasm` exactly, and `blob_<index>` otherwise,
including when mediaType is absent or not a string. -/
theorem spec_c3_default_filename (i : Nat) (layer : Json)
    (h : layerTitle layer = none) :
    (((jsonLookup layer mediaTypeChars).bind asStr = some wasmMediaTypeChars →
        filenameFor i layer = "module_".data ++ natChars i ++ ".wasm".data) ∧
     ((jsonLookup layer mediaTypeChars).bind asStr ≠ some wasmMediaTypeChars →
        filenameFor i layer = "blob_".data ++ natChars i)) := by
  have hw : layerIsWasm layer = true ↔
      (jsonLookup layer mediaTypeChars).bind asStr = some wasmMediaTypeChars := by
    unfold layerIsWasm
    cases hjl : jsonLookup layer mediaTypeChars with
    | none => simp
    | some j =>
      cases hstr : asStr j with
      | none => simp [hstr]
      | some m => simp [hstr]
  constructor
  · intro hmt
    simp only [filenameFor, h, hw.mpr hmt, if_true]
  · intro hmt
    have hfalse : layerIsWasm layer = false := by
      cases hb : layerIsWasm layer with
      | false => rfl
      | true => exact absurd (hw.mp hb) hmt
    simp only [filenameFor, h, hfalse, Bool.false_eq_true, if_false]

/-- C3 witness: a wasm-typed untitled layer at index 3, and an untyped
untitled layer at index 3. -/
theorem spec_c3_default_filename_witness :
    layerTitle (Json.obj (JObj.cons mediaTypeChars (Json.str wasmMediaTypeChars)
        JObj.nil)) = none ∧
    filenameFor 3 (Json.obj (JObj.cons mediaTypeChars (Json.str wasmMediaTypeChars)
        JObj.nil)) = "module_".data ++ natChars 3 ++ ".wasm".data ∧
    layerTitle (Json.obj JObj.nil) = none ∧
    filenameFor 3 (Json.obj JObj.nil) = "blob_".data ++ natChars 3 :=
  ⟨rfl,
   (spec_c3_default_filename 3 (Json.obj (JObj.cons mediaTypeChars
     (Json.str wasmMediaTypeChars) JObj.nil)) rfl).1 rfl,
   rfl,
   (spec_c3_default_filename 3 (Json.obj JObj.nil) rfl).2 (by decide)⟩

/-- C9: when one of the four environment variables is unset, the run
fails before any request or directory creation, with an error naming the
first unset variable in program order. -/
theorem spec_c9_missing_env (env : Env) (w : World)
    (h : env.registry = none ∨ env.pkgNamespace = none ∨ env.pkgName = none ∨
      env.pkgVersion = none) :
    (run env w).requests = [] ∧ (run env w).dirs = [] ∧ (run env w).files = [] ∧
    ∃ name, (run env w).result = RunResult.err (envVarMissingMsg name) ∧
      ((name = "REGISTRY".data ∧ env.registry = none) ∨
       (name = "PKG_NAMESPACE".data ∧ env.pkgNamespace = none) ∨
       (name = "PKG_NAME".data ∧ env.pkgName = none) ∨
       (name = "PKG_VERSION".data ∧ env.pkgVersion = none)) := by
  obtain ⟨reg, pns, pn, pv⟩ := env
  cases reg with
  | none => exact ⟨rfl, rfl, rfl, "REGISTRY".data, rfl, Or.inl ⟨rfl, rfl⟩⟩
  | some r =>
    cases pns with
    | none => exact ⟨rfl, rfl, rfl, "PKG_NAMESPACE".data, rfl, Or.inr (Or.inl ⟨rfl, rfl⟩)⟩
    | some ns =>
      cases pn with
      | none =>
        exact ⟨rfl, rfl, rfl, "PKG_NAME".data, rfl, Or.inr (Or.inr (Or.inl ⟨rfl, rfl⟩))⟩
      | some n =>
        cases pv with
        | none =>
          exact ⟨rfl, rfl, rfl, "PKG_VERSION".data, rfl,
            Or.inr (Or.inr (Or.inr ⟨rfl, rfl⟩))⟩
        | some v => rcases h with h | h | h | h <;> simp at h

/-- C9 witness: a concrete environment missing `REGISTRY`. -/
theorem spec_c9_missing_env_witness :
    ((⟨none, some [], some [], some []⟩ : Env).registry = none ∨
      (⟨none, some [], some [], some []⟩ : Env).pkgNamespace = none ∨
      (⟨none, some [], some [], some []⟩ : Env).pkgName = none ∨
      (⟨none, some [], some [], some []⟩ : Env).pkgVersion = none) ∧
    ((run ⟨none, some [], some [], some []⟩
        ⟨.sendErr [], .sendErr [], fun _ => .sendErr []⟩).requests = [] ∧
      (run ⟨none, some [], some [], some []⟩
        ⟨.sendErr [], .sendErr [], fun _ => .sendErr []⟩).dirs = [] ∧
      (run ⟨none, some [], some [], some []⟩
        ⟨.sendErr [], .sendErr [], fun _ => .sendErr []⟩).files = [] ∧
      ∃ name, (run ⟨none, some [], some [], some []⟩
          ⟨.sendErr [], .sendErr [], fun _ => .sendErr []⟩).result =
            RunResult.err (envVarMissingMsg name) ∧
        ((name = "REGISTRY".data ∧
            (⟨none, some [], some [], some []⟩ : Env).registry = none) ∨
         (name = "PKG_NAMESPACE".data ∧
            (⟨none, some [], some [], some []⟩ : Env).pkgNamespace = none) ∨
         (name = "PKG_NAME".data ∧
            (⟨none, some [], some [], some []⟩ : Env).pkgName = none) ∨
         (name = "PKG_VERSION".data ∧
            (⟨none, some [], some [], some []⟩ : Env).pkgVersion = none))) :=
  ⟨Or.inl rfl, spec_c9_missing_env _ _ (Or.inl rfl)⟩

/-- C6: for a successfully fetched and parsed manifest whose layers field
is an empty array (and which has no config field), the run issues no blob
request, writes only `manifest.json`, and exits successfully. -/
theorem spec_c6_empty_layers (r ns n v : List Char) (w : World) (status : Nat)
    (body : List Nat) (manifest : Json)
    (hm : w.manifest = .resp status (.ok body))
    (hs : isSuccessStatus status = true)
    (hp : jsonOfBytes body = some manifest)
    (hl : jsonLookup manifest layersChars = some (Json.arr JArr.nil))
    (_hc : jsonLookup manifest configChars = none) :
    run ⟨some r, some ns, some n, some v⟩ w =
      ⟨[RequestKind.manifest], [n ++ '-' :: v],
       [⟨(n ++ '-' :: v) ++ '/' :: "manifest.json".data, .text (printValue 0 manifest)⟩],
       RunResult.ok⟩ := by
  simp only [run, hm, hs, if_true, hp, hl, Option.bind, asArr, arrToList, processLayers]
/-- C6 witness: a concrete world serving the manifest bytes of the JSON
text with an empty layers array. -/
theorem spec_c6_empty_layers_witness :
    (⟨.resp 200 (.ok [123, 34, 108, 97, 121, 101, 114, 115, 34, 58, 91, 93, 125]),
       .sendErr [], fun _ => .sendErr []⟩ : World).manifest =
        .resp 200 (.ok [123, 34, 108, 97, 121, 101, 114, 115, 34, 58, 91, 93, 125]) ∧
    isSuccessStatus 200 = true ∧
    jsonOfBytes [123, 34, 108, 97, 121, 101, 114, 115, 34, 58, 91, 93, 125] =
      some (Json.obj (JObj.cons "layers".data (Json.arr JArr.nil) JObj.nil)) ∧
    jsonLookup (Json.obj (JObj.cons "layers".data (Json.arr JArr.nil) JObj.nil))
      layersChars = some (Json.arr JArr.nil) ∧
    jsonLookup (Json.obj (JObj.cons "layers".data (Json.arr JArr.nil) JObj.nil))
      configChars = none ∧
    run ⟨some ['r'], some ['s'], some ['n'], some ['v']⟩
        ⟨.resp 200 (.ok [123, 34, 108, 97, 121, 101, 114, 115, 34, 58, 91, 93, 125]),
         .sendErr [], fun _ => .sendErr []⟩ =
      ⟨[RequestKind.manifest], [['n'] ++ '-' :: ['v']],
       [⟨(['n'] ++ '-' :: ['v']) ++ '/' :: "manifest.json".data,
         .text (printValue 0 (Json.obj (JObj.cons "layers".data (Json.arr JArr.nil)
           JObj.nil)))⟩],
       RunResult.ok⟩ :=
  ⟨rfl, rfl, rfl, rfl, rfl,
   spec_c6_empty_layers ['r'] ['s'] ['n'] ['v'] _ 200 _ _ rfl rfl rfl rfl rfl⟩
/-- C1 (amended): on a manifest response with non-success status the run
exits non-zero after issuing the diagnostic catalog request, creating no
files; the reported error carries the status and body text, except that a
catalog response with success status and a non-JSON-decodable body makes
the run fail with that decode error instead. -/
theorem spec_c1_manifest_failure (r ns n v : List Char) (w : World) (status : Nat)
    (bodyRes : Except (List Char) (List Nat))
    (hm : w.manifest = .resp status bodyRes)
    (hs : isSuccessStatus status = false) :
    run ⟨some r, some ns, some n, some v⟩ w =
      ⟨[RequestKind.manifest, RequestKind.catalog], [n ++ '-' :: v], [],
       .err (if catalogDecodeFails w then catalogDecodeErrMsg
             else httpErrMsg status (textOf bodyRes))⟩ := by
  simp only [run, hm, hs, Bool.false_eq_true, if_false]
  exact manifestFailure_shape w (n ++ '-' :: v) status bodyRes

/-- C1 witness: manifest 404 with readable body, catalog returning valid
JSON, so the reported error is the HTTP status and body text. -/
theorem spec_c1_manifest_failure_witness :
    (⟨.resp 404 (.ok [110, 102]), .resp 200 (.ok [123, 125]),
        fun _ => .sendErr []⟩ : World).manifest = .resp 404 (.ok [110, 102]) ∧
    isSuccessStatus 404 = false ∧
    run ⟨some ['r'], some ['s'], some ['n'], some ['v']⟩
        ⟨.resp 404 (.ok [110, 102]), .resp 200 (.ok [123, 125]), fun _ => .sendErr []⟩ =
      ⟨[RequestKind.manifest, RequestKind.catalog], [['n'] ++ '-' :: ['v']], [],
       .err (if catalogDecodeFails ⟨.resp 404 (.ok [110, 102]),
               .resp 200 (.ok [123, 125]), fun _ => .sendErr []⟩ then catalogDecodeErrMsg
             else httpErrMsg 404 (textOf (.ok [110, 102])))⟩ :=
  ⟨rfl, rfl, spec_c1_manifest_failure ['r'] ['s'] ['n'] ['v'] _ 404 _ rfl rfl⟩

/-- C1 counterexample: with the manifest returning 404 (body text `nf`),
the reported error depends on the catalog response: a catalog 200 whose
body fails to parse as JSON replaces the HTTP error with the decode
error, so the catalog outcome does change the reported error and the
error does not mention the status or body text. -/
theorem spec_c1_counterexample :
    (run ⟨some ['r'], some ['s'], some ['n'], some ['v']⟩
        ⟨.resp 404 (.ok [110, 102]), .resp 200 (.ok [120]),
         fun _ => .sendErr []⟩).result = .err catalogDecodeErrMsg ∧
    (run ⟨some ['r'], some ['s'], some ['n'], some ['v']⟩
        ⟨.resp 404 (.ok [110, 102]), .resp 200 (.ok [123, 125]),
         fun _ => .sendErr []⟩).result = .err (httpErrMsg 404 ['n', 'f']) ∧
    catalogDecodeErrMsg ≠ httpErrMsg 404 ['n', 'f'] := by
  refine ⟨rfl, rfl, ?_⟩
  decide
/-- C2: for a downloaded blob whose filename ends in `.json` or whose
first byte is the opening-brace byte, if the bytes are valid UTF-8 that
parses as JSON then a second file named after the filename with any
trailing `.json` stripped plus `_pretty.json` is written, and its
contents re-parse to a JSON value equal to the one parsed from the
source bytes. -/
theorem spec_c2_pretty_roundtrip (w : World) (digest filename outputDir : List Char)
    (status : Nat) (body : List Nat) (cs : List Char) (jv : Json)
    (hb : w.blob digest = .resp status (.ok body))
    (hs : isSuccessStatus status = true)
    (hcond : listEndsWith filename jsonExtChars = true ∨ body.head? = some 123)
    (hdec : utf8Decode body = some cs)
    (hparse : jsonParse cs = some jv) :
    downloadBlob w digest filename outputDir =
      ([RequestKind.blob digest],
       [⟨outputDir ++ '/' :: filename, .bytes body⟩,
        ⟨outputDir ++ '/' :: trimEndMatches jsonExtChars filename ++ "_pretty.json".data,
         .text (printValue 0 jv)⟩],
       RunResult.ok) ∧
    jsonParse (printValue 0 jv) = some jv := by
  refine ⟨?_, jsonParse_printValue jv⟩
  unfold downloadBlob
  rw [hb]
  simp only [hs, if_true]
  rcases hcond with h | h
  · simp only [h, Bool.true_or, if_true, hdec, hparse]
  · cases body with
    | nil => simp at h
    | cons b rest =>
      rw [List.head?_cons, Option.some_inj] at h
      subst h
      simp only [hdec, hparse, beq_self_eq_true, Bool.or_true, if_true]

/-- C2 witness: a blob with body bytes `7b 7d` (the text of an empty
JSON object) saved under the name `a.json`. -/
theorem spec_c2_pretty_roundtrip_witness :
    (⟨.sendErr [], .sendErr [], fun _ => .resp 200 (.ok [123, 125])⟩ : World).blob
        ['d'] = .resp 200 (.ok [123, 125]) ∧
    isSuccessStatus 200 = true ∧
    (listEndsWith "a.json".data jsonExtChars = true ∨
      ([123, 125] : List Nat).head? = some 123) ∧
    utf8Decode [123, 125] = some [lbraceChar, rbraceChar] ∧
    jsonParse [lbraceChar, rbraceChar] = some (Json.obj JObj.nil) ∧
    (downloadBlob ⟨.sendErr [], .sendErr [], fun _ => .resp 200 (.ok [123, 125])⟩
        ['d'] "a.json".data ['o'] =
      ([RequestKind.blob ['d']],
       [⟨['o'] ++ '/' :: "a.json".data, .bytes [123, 125]⟩,
        ⟨['o'] ++ '/' :: trimEndMatches jsonExtChars "a.json".data ++ "_pretty.json".data,
         .text (printValue 0 (Json.obj JObj.nil))⟩],
       RunResult.ok) ∧
     jsonParse (printValue 0 (Json.obj JObj.nil)) = some (Json.obj JObj.nil)) :=
  ⟨rfl, rfl, Or.inl rfl, rfl, rfl,
   spec_c2_pretty_roundtrip _ ['d'] "a.json".data ['o'] 200 [123, 125]
     [lbraceChar, rbraceChar] (Json.obj JObj.nil) rfl rfl (Or.inl rfl) rfl rfl⟩
/-- C5: when every digest-bearing entry of a prefix downloads
successfully and the next entry's blob returns a non-success status, the
layer loop aborts there with an error: the requests are exactly those of
the prefix plus the failing blob (no later entry is fetched) and the
files on disk are exactly those written for the prefix. -/
theorem spec_c5_abort_on_blob_failure (w : World) (outputDir : List Char) :
    ∀ (pre : List Json) (i : Nat) (bad : Json) (post : List Json) (d : List Char)
      (status : Nat) (bodyRes : Except (List Char) (List Nat)),
      (∀ layer ∈ pre, ∀ d2, digestOf layer = some d2 → blobSucceeds w d2) →
      digestOf bad = some d →
      w.blob d = .resp status bodyRes →
      isSuccessStatus status = false →
      processLayers w outputDir i (pre ++ bad :: post) =
        ((processLayers w outputDir i pre).1 ++ [RequestKind.blob d],
         (processLayers w outputDir i pre).2.1,
         .err (blobErrMsg d status)) := by
  intro pre
  induction pre with
  | nil =>
    intro i bad post d status bodyRes _ hbad hresp hs
    simp only [List.nil_append, processLayers, hbad,
      downloadBlob_err_shape w d (filenameFor i bad) outputDir status bodyRes hresp hs]
  | cons layer pre ih =>
    intro i bad post d status bodyRes hpre hbad hresp hs
    have hrec := ih (i + 1) bad post d status bodyRes
      (fun l hl d2 hd2 => hpre l (by simp [hl]) d2 hd2) hbad hresp hs
    cases hd : digestOf layer with
    | none =>
      simp only [List.cons_append, processLayers, hd, List.append_eq, hrec]
    | some d2 =>
      have hsucc : blobSucceeds w d2 := hpre layer (by simp) d2 hd
      obtain ⟨files, hdb⟩ := downloadBlob_ok_shape w d2 (filenameFor i layer) outputDir hsucc
      simp only [List.cons_append, processLayers, hd, hdb, List.append_eq, hrec]
      simp

/-- C5 witness: one successful prefix blob, a failing second blob with a
third entry never fetched. -/
theorem spec_c5_abort_on_blob_failure_witness :
    (∀ layer ∈ [Json.obj (JObj.cons "digest".data (Json.str ['a']) JObj.nil)],
      ∀ d2, digestOf layer = some d2 →
        blobSucceeds ⟨.sendErr [], .sendErr [],
          fun d => if d == ['b'] then .resp 500 (.ok []) else .resp 200 (.ok [65])⟩ d2) ∧
    digestOf (Json.obj (JObj.cons "digest".data (Json.str ['b']) JObj.nil)) = some ['b'] ∧
    (⟨.sendErr [], .sendErr [],
      fun d => if d == ['b'] then .resp 500 (.ok []) else .resp 200 (.ok [65])⟩ :
        World).blob ['b'] = .resp 500 (.ok []) ∧
    isSuccessStatus 500 = false ∧
    processLayers ⟨.sendErr [], .sendErr [],
        fun d => if d == ['b'] then .resp 500 (.ok []) else .resp 200 (.ok [65])⟩ ['o'] 0
      ([Json.obj (JObj.cons "digest".data (Json.str ['a']) JObj.nil)] ++
        Json.obj (JObj.cons "digest".data (Json.str ['b']) JObj.nil) ::
          [Json.obj (JObj.cons "digest".data (Json.str ['c']) JObj.nil)]) =
      ((processLayers ⟨.sendErr [], .sendErr [],
          fun d => if d == ['b'] then .resp 500 (.ok []) else .resp 200 (.ok [65])⟩ ['o'] 0
          [Json.obj (JObj.cons "digest".data (Json.str ['a']) JObj.nil)]).1 ++
        [RequestKind.blob ['b']],
       (processLayers ⟨.sendErr [], .sendErr [],
          fun d => if d == ['b'] then .resp 500 (.ok []) else .resp 200 (.ok [65])⟩ ['o'] 0
          [Json.obj (JObj.cons "digest".data (Json.str ['a']) JObj.nil)]).2.1,
       .err (blobErrMsg ['b'] 500)) := by
  refine ⟨?_, rfl, rfl, rfl, ?_⟩
  · intro layer hl d2 hd2
    simp only [List.mem_singleton] at hl
    subst hl
    have : d2 = ['a'] := by
      rw [show digestOf (Json.obj (JObj.cons "digest".data (Json.str ['a']) JObj.nil)) =
        some ['a'] from rfl, Option.some_inj] at hd2
      exact hd2.symm
    subst this
    exact ⟨200, [65], rfl, rfl⟩
  · exact spec_c5_abort_on_blob_failure _ ['o']
      [Json.obj (JObj.cons "digest".data (Json.str ['a']) JObj.nil)] 0
      (Json.obj (JObj.cons "digest".data (Json.str ['b']) JObj.nil))
      [Json.obj (JObj.cons "digest".data (Json.str ['c']) JObj.nil)]
      ['b'] 500 (.ok [])
      (by
        intro layer hl d2 hd2
        simp only [List.mem_singleton] at hl
        subst hl
        have : d2 = ['a'] := by
          rw [show digestOf (Json.obj (JObj.cons "digest".data (Json.str ['a'])
            JObj.nil)) = some ['a'] from rfl, Option.some_inj] at hd2
          exact hd2.symm
        subst this
        exact ⟨200, [65], rfl, rfl⟩)
      rfl rfl rfl
/-- C8: a failure to UTF-8-decode or JSON-parse a written blob during the
pretty-print step is non-fatal and silent: the raw blob file is still the
only file written and the download reports success.  Moreover this is the
only non-fatal failure: a run that exits successfully had a successful,
JSON-decodable manifest response, never issued the diagnostic catalog
request, and every blob it requested answered with a success status and
readable body. -/
theorem spec_c8_pretty_failure_nonfatal :
    (∀ (w : World) (digest filename outputDir : List Char) (status : Nat) (body : List Nat),
      w.blob digest = .resp status (.ok body) →
      isSuccessStatus status = true →
      jsonOfBytes body = none →
      downloadBlob w digest filename outputDir =
        ([RequestKind.blob digest], [⟨outputDir ++ '/' :: filename, .bytes body⟩],
         RunResult.ok)) ∧
    (∀ (r ns n v : List Char) (w : World),
      (run ⟨some r, some ns, some n, some v⟩ w).result = RunResult.ok →
      (∃ status body manifest, w.manifest = .resp status (.ok body) ∧
        isSuccessStatus status = true ∧ jsonOfBytes body = some manifest) ∧
      RequestKind.catalog ∉ (run ⟨some r, some ns, some n, some v⟩ w).requests ∧
      (∀ d, RequestKind.blob d ∈ (run ⟨some r, some ns, some n, some v⟩ w).requests →
        blobSucceeds w d)) := by
  constructor
  · intro w digest filename outputDir status body hb hs hj
    unfold downloadBlob
    rw [hb]
    simp only [hs, if_true]
    cases hdec : utf8Decode body with
    | none => simp [hdec]
    | some cs =>
      have hparse : jsonParse cs = none := by
        unfold jsonOfBytes at hj
        rw [hdec] at hj
        exact hj
      simp [hdec, hparse]
  · intro r ns n v w hok
    cases hm : w.manifest with
    | sendErr e => simp [run, hm] at hok
    | resp status bodyRes =>
      by_cases hs : isSuccessStatus status = true
      · cases bodyRes with
        | error e => simp [run, hm, hs] at hok
        | ok body =>
          cases hj : jsonOfBytes body with
          | none => simp [run, hm, hs, hj] at hok
          | some manifest =>
            refine ⟨⟨status, body, manifest, rfl, hs, hj⟩, ?_⟩
            cases hl : (jsonLookup manifest layersChars).bind asArr with
            | some xs =>
              rcases hpl : processLayers w (n ++ '-' :: v) 0 (arrToList xs) with
                ⟨reqs, files, res⟩
              have hrun : run ⟨some r, some ns, some n, some v⟩ w =
                  ⟨RequestKind.manifest :: reqs, [n ++ '-' :: v],
                   ⟨(n ++ '-' :: v) ++ '/' :: "manifest.json".data,
                    .text (printValue 0 manifest)⟩ :: files, res⟩ := by
                simp only [run, hm, hs, if_true, hj, hl, hpl]
              rw [hrun] at hok
              simp only at hok
              constructor
              · intro hmem
                rw [hrun] at hmem
                simp only [List.mem_cons] at hmem
                rcases hmem with hmem | hmem
                · exact absurd hmem (by simp)
                · obtain ⟨d, hd⟩ := processLayers_requests_blob w (n ++ '-' :: v)
                    (arrToList xs) 0 RequestKind.catalog (by rw [hpl]; exact hmem)
                  exact absurd hd (by simp)
              · intro d hmem
                rw [hrun] at hmem
                simp only [List.mem_cons] at hmem
                rcases hmem with hmem | hmem
                · exact absurd hmem (by simp)
                · exact processLayers_ok_blobSucceeds w (n ++ '-' :: v) (arrToList xs) 0
                    (by rw [hpl]; exact hok) d (by rw [hpl]; exact hmem)
            | none =>
              rcases hpc : processConfig w (n ++ '-' :: v) manifest with ⟨reqs, files, res⟩
              have hrun : run ⟨some r, some ns, some n, some v⟩ w =
                  ⟨RequestKind.manifest :: reqs, [n ++ '-' :: v],
                   ⟨(n ++ '-' :: v) ++ '/' :: "manifest.json".data,
                    .text (printValue 0 manifest)⟩ :: files, res⟩ := by
                simp only [run, hm, hs, if_true, hj, hl, hpc]
              rw [hrun] at hok
              simp only at hok
              constructor
              · intro hmem
                rw [hrun] at hmem
                simp only [List.mem_cons] at hmem
                rcases hmem with hmem | hmem
                · exact absurd hmem (by simp)
                · obtain ⟨d, hd⟩ := processConfig_requests_blob w (n ++ '-' :: v) manifest
                    RequestKind.catalog (by rw [hpc]; exact hmem)
                  exact absurd hd (by simp)
              · intro d hmem
                rw [hrun] at hmem
                simp only [List.mem_cons] at hmem
                rcases hmem with hmem | hmem
                · exact absurd hmem (by simp)
                · exact processConfig_ok_blobSucceeds w (n ++ '-' :: v) manifest
                    (by rw [hpc]; exact hok) d (by rw [hpc]; exact hmem)
      · have hs2 : isSuccessStatus status = false := by simpa using hs
        simp [run, hm, hs2, manifestFailure_shape] at hok

/-- C8 witness: a success-status blob whose body is not valid JSON is
written raw with no pretty sibling and no error. -/
theorem spec_c8_pretty_failure_nonfatal_witness :
    (⟨.sendErr [], .sendErr [], fun _ => .resp 200 (.ok [120])⟩ : World).blob ['d'] =
        .resp 200 (.ok [120]) ∧
    isSuccessStatus 200 = true ∧
    jsonOfBytes [120] = none ∧
    downloadBlob ⟨.sendErr [], .sendErr [], fun _ => .resp 200 (.ok [120])⟩ ['d']
        "f.json".data ['o'] =
      ([RequestKind.blob ['d']],
       [⟨['o'] ++ '/' :: "f.json".data, .bytes [120]⟩], RunResult.ok) :=
  ⟨rfl, rfl, rfl,
   spec_c8_pretty_failure_nonfatal.1 _ ['d'] "f.json".data ['o'] 200 [120] rfl rfl rfl⟩
